import Mathlib

/-!
Verification of the ConfigurationTree repository: a shallow embedding of
`storage.py` (the append-only log), `store.py` (the typed record store) and
`tree.py` (the tree façade), together with theorems settling the frozen
claims about the specification.

Files are modelled as byte lists (`List Nat`, one `Nat` in `0..255` per
byte).  Python exceptions are modelled as an explicit error type: the code
distinguishes `CorruptedFormat`, `ConcurrencyError`, the remaining storage
and store errors, and the raw Python errors (`AssertionError` for failed
`assert` statements, plain `RuntimeError`, `KeyError`, `TypeError` and
`AttributeError`) that some code paths raise.
-/

/-- The distinct error outcomes of the Python code.  `corruptedFormat`,
`concurrencyError` and `storeError` are the repository's own exception
classes (`CorruptedFormat`, `ConcurrencyError`, `StoreError`);
`assertionError`, `runtimeError`, `keyError`, `typeError` and
`attributeError` model the corresponding built-in Python exceptions. -/
inductive PyError where
  | corruptedFormat
  | concurrencyError
  | storeError
  | assertionError
  | runtimeError
  | keyError
  | typeError
  | attributeError
  deriving DecidableEq, Repr

/-! ## Log layer (`storage.py`) -/

namespace Storage

/-- `IDENTIFIER = b'3dbf4cbc-f015-43d9-b280-ff6962a22198'` (storage.py line 78),
as its list of byte values. -/
def IDENTIFIER : List Nat :=
  "3dbf4cbc-f015-43d9-b280-ff6962a22198".toList.map Char.toNat

/-- `DEFAULT_HEADER = 15` (storage.py line 82): digits used for the root pointer. -/
def DEFAULT_HEADER : Nat := 15

/-- `MAX_HEADER = 15` (storage.py line 85): maximum digits accepted for the root pointer. -/
def MAX_HEADER : Nat := 15

/-- Split a byte list at its first NL (byte 10): returns the first line
(including the terminating NL if present; the whole list if no NL) and the
remainder.  This is the reading discipline shared by `_getline` and
`readline`. -/
def takeLine : List Nat → List Nat × List Nat
  | [] => ([], [])
  | b :: rest =>
      if b = 10 then ([10], rest)
      else
        let p := takeLine rest
        (b :: p.1, p.2)

/-- `Storage._getline` (storage.py lines 232-246) reading from the given
remaining file contents: at end of file it returns `(None, b'')` (modelled
as `(none, [])`); on data without a terminating NL it raises
`RuntimeError('Unterminated line')`; otherwise it returns the line
including its NL and the remaining bytes. -/
def pygetline (data : List Nat) : Except PyError (Option (List Nat) × List Nat) :=
  match data with
  | [] => .ok (none, [])
  | b :: rest =>
      let p := takeLine (b :: rest)
      if p.1.getLast? = some 10 then .ok (some p.1, p.2) else .error .runtimeError

/-- Helper for `natDigits`: the fuel strictly exceeds the argument, and the
argument strictly decreases (`n / 10 < n` for `n ≥ 10`), so the fuel never
runs out. -/
def natDigitsAux : Nat → Nat → List Nat
  | 0, _ => []
  | fuel + 1, n =>
      if n < 10 then [48 + n]
      else natDigitsAux fuel (n / 10) ++ [48 + n % 10]

/-- Decimal digits of `n` as ASCII byte values (`'0' = 48`), most significant
first; `natDigits 0 = [48]`.  This is the digit string produced by Python's
`'{:d}'.format(n)` for a non-negative `n`. -/
def natDigits (n : Nat) : List Nat := natDigitsAux (n + 1) n

/-- `'{:0{}d}'.format(n, width)` for a non-negative `n`: the decimal digits
of `n`, left padded with ASCII zeros up to `width` (longer than `width` if
`n` needs more digits). -/
def fmtZeroPad (n width : Nat) : List Nat :=
  List.replicate (width - (natDigits n).length) 48 ++ natDigits n

/-- Value of an ASCII digit string, most significant digit first; this is
what Python's `int()` computes on the digit bytes. -/
def digitsVal (ds : List Nat) : Nat :=
  ds.foldl (fun a d => a * 10 + (d - 48)) 0

/-- `bytes.isdigit()`: true iff the byte string is non-empty and all bytes
are ASCII digits. -/
def pyIsDigit (l : List Nat) : Bool :=
  !l.isEmpty && l.all (fun d => 48 ≤ d && d ≤ 57)

/-- `Storage._parse_current_offset` (storage.py lines 215-230).
`assert line, 'Empty storage?'` fails on an empty line (this also models
the `assert` firing when `_getline` returned `None`, which is falsy);
then the line must satisfy
`2 <= len(line) <= MAX_HEADER+1 and line.endswith(b'\n') and line[:-1].isdigit()`
or `CorruptedFormat` is raised; on success `int(line)` is returned. -/
def parse_current_offset (line : List Nat) : Except PyError Nat :=
  if line = [] then .error .assertionError
  else if 2 ≤ line.length ∧ line.length ≤ MAX_HEADER + 1
      ∧ line.getLast? = some 10 ∧ pyIsDigit line.dropLast = true then
    .ok (digitsVal line.dropLast)
  else .error .corruptedFormat

/-- `Storage.get_current` (storage.py lines 248-259): read the first line
(`None[:-1]` would raise `TypeError` on an empty file), assert it is the
identifier, read the second line and parse it with `_parse_current_offset`
(a `None` second line hits that function's `assert line`). -/
def get_current (file : List Nat) : Except PyError Nat :=
  match pygetline file with
  | .error e => .error e
  | .ok (none, _) => .error .typeError
  | .ok (some l1, rest) =>
      if l1.dropLast ≠ IDENTIFIER then .error .assertionError
      else
        match pygetline rest with
        | .error e => .error e
        | .ok (l2opt, _) => parse_current_offset (l2opt.getD [])

/-- The write performed at the end of `Storage.set_current` (storage.py
lines 281-284): format the new root line at the width of the existing one,
assert the width is unchanged, and overwrite the root line in place at
position `pos`. -/
def set_current_write (file : List Nat) (pos : Nat) (line : List Nat) (offset : Nat) :
    Except PyError (List Nat) :=
  let new_line := fmtZeroPad offset (line.length - 1) ++ [10]
  if new_line.length ≠ line.length then .error .assertionError
  else .ok (file.take pos ++ new_line ++ file.drop (pos + new_line.length))

/-- `Storage.set_current` (storage.py lines 261-290): re-read the identifier
line and the root line, parse the current offset, compare it with the lease
(raising `ConcurrencyError` on mismatch), then overwrite the root line with
the same-width encoding of `offset`. -/
def set_current (file : List Nat) (offset : Nat) (lease : Option Nat) :
    Except PyError (List Nat) :=
  match pygetline file with
  | .error e => .error e
  | .ok (none, _) => .error .typeError
  | .ok (some l1, rest) =>
      if l1.dropLast ≠ IDENTIFIER then .error .assertionError
      else
        let pos := l1.length
        match pygetline rest with
        | .error e => .error e
        | .ok (l2opt, _) =>
            let line := l2opt.getD []
            match parse_current_offset line with
            | .error e => .error e
            | .ok current_offset =>
                match lease with
                | some v =>
                    if current_offset ≠ v then .error .concurrencyError
                    else set_current_write file pos line offset
                | none => set_current_write file pos line offset

/-- `Storage.load` (storage.py lines 292-310): seek to `offset` and read one
line with `_getline`.  At or past end of file `_getline` returns `None` and
`None.startswith` raises `AttributeError`; an unterminated tail raises
`RuntimeError` inside `_getline`.  Otherwise the line must start with TAB,
end with NL and contain no further TAB, else `CorruptedFormat`; the inner
bytes are returned. -/
def load (file : List Nat) (offset : Nat) : Except PyError (List Nat) :=
  match pygetline (file.drop offset) with
  | .error e => .error e
  | .ok (none, _) => .error .attributeError
  | .ok (some line, _) =>
      if line.head? ≠ some 9 then .error .corruptedFormat
      else if line.getLast? ≠ some 10 then .error .corruptedFormat
      else if (line.drop 1).contains 9 then .error .corruptedFormat
      else .ok (line.drop 1).dropLast

/-- `Storage.store` (storage.py lines 312-333): seek to the end, remember
the position, assert the file is non-trivial (`pos >= 2`) and that the
record contains no TAB and no NL, append `b'\t' + record + b'\n'` and
return the position. -/
def pystore (file : List Nat) (record : List Nat) : Except PyError (List Nat × Nat) :=
  let pos := file.length
  if pos < 2 then .error .assertionError
  else if record.contains 9 then .error .assertionError
  else if record.contains 10 then .error .assertionError
  else .ok (file ++ 9 :: (record ++ [10]), pos)

/-- The record-line loop of `Storage.scan` (storage.py lines 359-370): read
each remaining line; it must end with NL, start with TAB and contain no
further TAB, else `CorruptedFormat`. -/
def scanLoop (data : List Nat) : Except PyError Unit :=
  match data with
  | [] => .ok ()
  | b :: rest =>
      let p := takeLine (b :: rest)
      if p.1.getLast? ≠ some 10 then .error .corruptedFormat
      else if p.1.head? ≠ some 9 then .error .corruptedFormat
      else if (p.1.drop 1).contains 9 then .error .corruptedFormat
      else scanLoop p.2
  termination_by data.length
  decreasing_by
    have h1 : ∀ d : List Nat, (takeLine d).1 ++ (takeLine d).2 = d := by
      clear * -
      intro d
      induction d with
      | nil => simp [takeLine]
      | cons c cs ih =>
          simp only [takeLine]
          split
          · simp_all
          · simpa using ih
    have h2 : (takeLine (b :: rest)).1 ≠ [] := by
      clear * -
      simp only [takeLine]
      split <;> simp
    have h3 := congrArg List.length (h1 (b :: rest))
    simp only [List.length_append, List.length_cons] at h3
    have h4 : 0 < (takeLine (b :: rest)).1.length := List.length_pos.mpr h2
    simp only [List.length_cons]
    omega

/-- `Storage.scan` (storage.py lines 335-370): check the identifier line,
check and parse the root line, then check every record line. -/
def scan (file : List Nat) : Except PyError Unit :=
  match file with
  | [] => .error .corruptedFormat
  | b :: rest =>
      let p1 := takeLine (b :: rest)
      if p1.1.getLast? ≠ some 10 then .error .corruptedFormat
      else if p1.1.dropLast ≠ IDENTIFIER then .error .corruptedFormat
      else
        let p2 := takeLine p1.2
        if p2.1.getLast? ≠ some 10 then .error .corruptedFormat
        else
          match parse_current_offset p2.1 with
          | .error e => .error e
          | .ok _ => scanLoop p2.2

/-- `Storage._init` (storage.py lines 120-133): the bytes of a freshly
initialized storage: the identifier line followed by a root line of
`DEFAULT_HEADER` zeros. -/
def initFile : List Nat :=
  IDENTIFIER ++ 10 :: (fmtZeroPad 0 DEFAULT_HEADER ++ [10])

/-- The on-disk line of one record: `b'\t' + record + b'\n'`. -/
def recLine (r : List Nat) : List Nat := 9 :: (r ++ [10])

/-- The record area of a file holding the records `rs` in order. -/
def recsBytes (rs : List (List Nat)) : List Nat := (rs.map recLine).flatten

/-- A legal record payload: no TAB and no NL (the precondition asserted by
`Storage.store`). -/
def cleanRec (r : List Nat) : Prop := 9 ∉ r ∧ 10 ∉ r

/-- The shape of every file a fresh storage can evolve into through legal
`store`/`set_current` calls: identifier line, a root line of `width`
digits (`store` never touches it and `set_current` preserves its width,
which starts at `DEFAULT_HEADER`), then one line per record. -/
def ShapeFile (f : List Nat) : Prop :=
  ∃ ds rs, f = IDENTIFIER ++ 10 :: (ds ++ 10 :: recsBytes rs)
    ∧ ds.length = DEFAULT_HEADER ∧ pyIsDigit ds = true ∧ ∀ r ∈ rs, cleanRec r

/-- The files produced from a freshly initialized storage by any sequence
of legal (non-raising) `store` and `set_current` calls. -/
inductive Reachable : List Nat → Prop where
  | init : Reachable initFile
  | store_ok (f r f' pos) : Reachable f → pystore f r = .ok (f', pos) → Reachable f'
  | set_ok (f n l f') : Reachable f → set_current f n l = .ok f' → Reachable f'

end Storage

/-! ## Record-store layer (`store.py`)

For the commit claims (C1, C10) we embed the `Store` state that `commit`
inspects: the observed root offset `current_root` (set at open, advanced on
each successful commit) and the root slot `__root`, which holds either the
unchanged integer offset, an assigned `Item`, or `None` after
`detach_root()`.  For the root item it suffices to embed `Leaf`: a leaf
carries the JSON payload bytes of its value (`json.dumps(value)` encoded,
produced by `Store._record`), an optional offset and its attachment flag.
`Kind.leaf.value = b'='` is byte 61. -/

namespace RStore

open Storage

/-- A `Leaf` item as seen by `commit`/`_persist`: `payload` is the
JSON-encoded bytes of its value, `offset` is `None` while dirty, and
`attached` tracks the `_link` used by the `assert self.attached` in
`Leaf._persist`. -/
structure MLeaf where
  payload : List Nat
  offset : Option Nat
  attached : Bool
  deriving DecidableEq, Repr

/-- The `Store.__root` slot: an `int` offset (unchanged since open), an
assigned item, or `None` after `detach_root()`. -/
inductive MRoot where
  | asInt (n : Nat)
  | asItem (l : MLeaf)
  | unset
  deriving DecidableEq, Repr

/-- The `Store` state relevant to `commit`: `__current_root` and `__root`. -/
structure MStore where
  current_root : Nat
  root : MRoot
  deriving DecidableEq, Repr

/-- `Store.__init__` (store.py lines 45-50) with `alternate_root = None`:
read the current root from the storage; both `__current_root` and `__root`
start as that integer. -/
def Store_open (file : List Nat) : Except PyError MStore :=
  match get_current file with
  | .error e => .error e
  | .ok r => .ok ⟨r, .asInt r⟩

/-- `Store._set_root` (store.py lines 172-175): attach the item as the root
(`_attach` raises `StoreError` if it is already attached) and install it in
the `__root` slot. -/
def Store_set_root (s : MStore) (l : MLeaf) : Except PyError MStore :=
  if l.attached then .error .storeError
  else .ok ⟨s.current_root, .asItem { l with attached := true }⟩

/-- `Leaf._persist` (store.py lines 286-290): assert the item is attached
and has no offset yet, then append `Kind.leaf.value + payload` (byte 61
followed by the JSON bytes) through `Storage.store` and record the new
offset. -/
def persistLeaf (file : List Nat) (l : MLeaf) : Except PyError (List Nat × MLeaf) :=
  if !l.attached then .error .assertionError
  else if l.offset ≠ none then .error .assertionError
  else
    match pystore file (61 :: l.payload) with
    | .error e => .error e
    | .ok (f', pos) => .ok (f', { l with offset := some pos })

/-- `Store.commit` (store.py lines 182-198).  Returns the file after the
call, the store after the call, and the outcome (`.ok offset` or the raised
error); on an error the returned file retains the writes that happened
before the raise (a persist that preceded a failed CAS).  A `None` root
raises `DetachedRoot` (a `StoreError`); an integer root is used as the
offset directly; an item root is persisted first when dirty.  The current
root observed at open (or at the last successful commit) is always passed
as the lease to `Storage.set_current`, and on success `__current_root`
advances to the new offset. -/
def Store_commit (file : List Nat) (s : MStore) :
    List Nat × MStore × Except PyError Nat :=
  match s.root with
  | .unset => (file, s, .error .storeError)
  | .asInt n =>
      match set_current file n (some s.current_root) with
      | .ok f' => (f', ⟨n, .asInt n⟩, .ok n)
      | .error e => (file, s, .error e)
  | .asItem l =>
      match (if l.offset = none then persistLeaf file l else .ok (file, l)) with
      | .error e => (file, s, .error e)
      | .ok (f1, l1) =>
          match l1.offset with
          | some off =>
              (match set_current f1 off (some s.current_root) with
               | .ok f2 => (f2, ⟨off, .asItem l1⟩, .ok off)
               | .error e => (f1, { s with root := .asItem l1 }, .error e))
          | none =>
              -- `'{:0{}d}'.format(None, _)` would raise TypeError; unreachable
              -- because a successful persist always sets the offset.
              (f1, { s with root := .asItem l1 }, .error .typeError)

end RStore

/-! ## Attachment discipline (`store.py`: `Item._attach`, `Node.set`,
`Node.remove`)

For claim C7 we embed the mutable object graph as a small heap: items are
numbered, `links i` is the `Item.__link` of item `i` (`none` = detached;
`some (parent, key)` = attached to that parent under that key), and
`entries` is the key-to-item mapping of the node under consideration
(Python dict assignment keeps the position of an existing key).  Offsets
and `_changed` propagation are orthogonal to the link discipline and are
not part of this heap. -/

namespace Attach

/-- Parent links of the numbered items: `links.get? i` is item `i`'s
`__link`. -/
abbrev Links := List (Option (Nat × String))

/-- `Item._attach` (store.py lines 266-270): raise `StoreError('The item is
already attached')` if the link is set, otherwise set it. -/
def Item_attach (ls : Links) (i : Nat) (parent : Nat) (key : String) :
    Except PyError Links :=
  match ls.get? i with
  | none => .error .keyError
  | some (some _) => .error .storeError
  | some none => .ok (ls.set i (some (parent, key)))

/-- `Item._detach` (store.py lines 272-275): raise `StoreError('The item is
already detached')` if the link is unset, otherwise clear it. -/
def Item_detach (ls : Links) (i : Nat) : Except PyError Links :=
  match ls.get? i with
  | none => .error .keyError
  | some none => .error .storeError
  | some (some _) => .ok (ls.set i none)

/-- Python dict assignment `d[key] = v`: replace the value of an existing
key in place, otherwise append the new binding. -/
def upsertNat (es : List (String × Nat)) (key : String) (v : Nat) :
    List (String × Nat) :=
  match es with
  | [] => [(key, v)]
  | (k, w) :: rest =>
      if k = key then (k, v) :: rest else (k, w) :: upsertNat rest key v

/-- A node's heap state: its parent-link table and its entry dict. -/
structure NHeap where
  links : Links
  entries : List (String × Nat)
  deriving DecidableEq, Repr

/-- `Node.set` (store.py lines 360-367) with `volatile = False`: attach the
new value to `Link(self, key)` and overwrite the entry at `key`.  Nothing
detaches the entry previously stored at `key`. -/
def Node_set (h : NHeap) (self : Nat) (key : String) (value : Nat) :
    Except PyError NHeap :=
  match Item_attach h.links value self key with
  | .error e => .error e
  | .ok ls => .ok ⟨ls, upsertNat h.entries key value⟩

/-- `Node.remove` (store.py lines 369-375): look up the item (KeyError when
absent), detach it, and delete the entry. -/
def Node_remove (h : NHeap) (key : String) : Except PyError (NHeap × Nat) :=
  match h.entries.lookup key with
  | none => .error .keyError
  | some item =>
      match Item_detach h.links item with
      | .error e => .error e
      | .ok ls => .ok (⟨ls, h.entries.filter (fun p => p.1 ≠ key)⟩, item)

end Attach

/-! ## Tree façade layer (`tree.py`)

The tree reachable from a `Configuration` root is embedded functionally:
a node is its ordered key-to-child mapping (Python dicts preserve
insertion order), a leaf holds its JSON value.  Leaf payloads are opaque
to every tree operation verified here, so the JSON type is restricted to
the atoms the claims exercise.

Object identity (`p.__node is v.__node` in `_set`, `value is
self.__entries.get(name)`) is modelled as path equality: by invariants I5
and I6 a live node object is reachable at exactly one path and façades
share the node object of their path, so two materialized façades hold the
same node object exactly when their paths are equal.

Schema calls are recorded as an event trace: the default `Schema` is a
no-op (`descend` returns itself, `validate`/`setup`/`check` do nothing),
so the only observable effect of the schema hooks is which ones get
invoked, which is what claim C8 is about. -/

namespace TreeF

/-- JSON leaf values (atoms; payloads are opaque to the tree operations). -/
inductive JVal where
  | jnull
  | jbool (b : Bool)
  | jnum (n : Int)
  | jstr (s : String)
  deriving DecidableEq, Repr

/-- A store item as seen through the tree: a node with its ordered entry
dict, or a leaf. -/
inductive PItem where
  | node (entries : List (String × PItem))
  | leaf (v : JVal)

/-- Schema invocations recorded by the embedded tree operations. -/
inductive SEvent where
  | setup (p : List String)
  | validate (p : List String) (k : String)
  deriving DecidableEq, Repr

/-- Dict lookup `d[key]` as `Option`. -/
def lookupEntry : List (String × PItem) → String → Option PItem
  | [], _ => none
  | (k, it) :: rest, key => if k = key then some it else lookupEntry rest key

/-- Python dict assignment `d[key] = v`: replace in place or append. -/
def upsertItem (es : List (String × PItem)) (key : String) (v : PItem) :
    List (String × PItem) :=
  match es with
  | [] => [(key, v)]
  | (k, w) :: rest =>
      if k = key then (k, v) :: rest else (k, w) :: upsertItem rest key v

/-- The item at a path, following node entries. -/
def getNodeAt : PItem → List String → Option PItem
  | t, [] => some t
  | .node es, k :: p =>
      (match lookupEntry es k with
       | some it => getNodeAt it p
       | none => none)
  | .leaf _, _ :: _ => none

/-- Replace the child at key `k` of the node at path `pt` (the path is
assumed realized; unreachable fall-through cases leave the tree
unchanged). -/
def setAt : PItem → List String → String → PItem → PItem
  | .node es, [], k, it => .node (upsertItem es k it)
  | .node es, q :: qs, k, it =>
      (match lookupEntry es q with
       | some t => .node (upsertItem es q (setAt t qs k it))
       | none => .node es)
  | .leaf v, _, _, _ => .leaf v

/-- `Node.remove` along a path: returns the tree without the entry and the
removed item, or `none` when the path/key is absent. -/
def removeAt : PItem → List String → Option (PItem × PItem)
  | _, [] => none
  | .node es, [k] =>
      (match lookupEntry es k with
       | some it => some (.node (es.filter (fun p => p.1 ≠ k)), it)
       | none => none)
  | .node es, q :: qs@(_ :: _) =>
      (match lookupEntry es q with
       | some t =>
           (match removeAt t qs with
            | some (t', it) => some (.node (upsertItem es q t'), it)
            | none => none)
       | none => none)
  | .leaf _, _ :: _ => none

mutual

/-- `Node.clone`/`Leaf.clone` (store.py lines 302-303 and 389-394): a deep
copy of the subtree; clones carry no offset. -/
def cloneItem : PItem → PItem
  | .leaf v => .leaf v
  | .node es => .node (cloneEntries es)

def cloneEntries : List (String × PItem) → List (String × PItem)
  | [] => []
  | (k, it) :: rest => (k, cloneItem it) :: cloneEntries rest

end

mutual

/-- `Tree.__check` (tree.py lines 371-378) under the default schema:
`validate` is invoked for every leaf child, recursing into node children;
the trace records the calls.  (Python iterates keys in sorted order; the
entry order used here only permutes the trace.) -/
def checkEvents : PItem → List String → List SEvent
  | .leaf _, _ => []
  | .node es, p => checkEventsList es p

def checkEventsList : List (String × PItem) → List String → List SEvent
  | [], _ => []
  | (k, .leaf _) :: rest, p => .validate p k :: checkEventsList rest p
  | (k, .node es') :: rest, p =>
      checkEventsList es' (p ++ [k]) ++ checkEventsList rest p

end

/-- `Tree.__realize` (tree.py lines 414-423) along a path: walk the parent
chain first, creating an empty node at each missing key; each creation
fires `schema.setup` on the created façade (recorded as a `setup` event
with that façade's path); an existing entry that is a leaf fails the
`assert isinstance(node, Node)` inside `Node.node`.  Returns the updated
entries, the event trace and the error state at return (mutations made
before a raise are kept, as in Python). -/
def realizeAt (es : List (String × PItem)) :
    List String → List String →
    List (String × PItem) × List SEvent × Option PyError
  | [], _ => (es, [], none)
  | k :: p, pre =>
      match lookupEntry es k with
      | some (.node es') =>
          let r := realizeAt es' p (pre ++ [k])
          (upsertItem es k (.node r.1), r.2.1, r.2.2)
      | some (.leaf _) => (es, [], some .assertionError)
      | none =>
          let r := realizeAt [] p (pre ++ [k])
          (upsertItem es k (.node r.1), .setup (pre ++ [k]) :: r.2.1, r.2.2)

/-- The parent chain of the façade at path `pt`, own path first, root
(`[]`) last: the paths visited by `p = self; while p is not None: ...;
p = p.__parent` in `Tree._set`. -/
def upChain (pt : List String) : List (List String) :=
  (List.range (pt.length + 1)).map (fun i => pt.take (pt.length - i))

/-- The argument shapes of `Tree._set` (tree.py lines 327-369): a `Move`
wrapper holding the source façade (identified by its path), a `Tree`
façade (copy, identified by its path), the `Empty` placeholder, or a plain
JSON value. -/
inductive SetArg where
  | mv (src : List String)
  | cp (src : List String)
  | empty
  | val (j : JVal)
  deriving DecidableEq, Repr

/-- Result of `Tree._set`: the tree after the call, the schema calls made,
and the raised error if any (the tree reflects all mutations made before
the raise). -/
structure SetOut where
  tree : PItem
  events : List SEvent
  err : Option PyError

/-- `Tree._set` (tree.py lines 327-369) called on the façade at path `pt`
with key `k`, under the default schema.

* `Move`: `value.source`; `KeyError` if the source façade has no node;
  `__precheck` walks the source subtree calling `validate` on its leaves;
  then the ancestor walk raises `RuntimeError('Cannot move a tree to a
  child of itself.')` when an ancestor façade (destination included) holds
  the source's node — by path uniqueness, when the source path is a prefix
  of `pt`; otherwise `__realize`, remove the source from its parent,
  `__patch` (no-op under the default schema: `descend` returns the same
  schema and the subtree is materialized), and `Node.set` at `k`.
* `Tree` (copy): return unchanged when the value is the cached child at
  `k` (path `pt ++ [k]`); otherwise `__precheck` — whose `__check` first
  realizes the source façade, creating its path if missing — then clone
  the source node, `__realize`, `__patch` (no-op) and `Node.set`.
* `Empty`: create an empty `Node` and set it; the `setup` flag assigned
  here is never used because the `schema.setup` call at the end of `_set`
  is commented out (tree.py lines 368-369).
* value: `schema.validate(self, name, value)` (recorded), then
  `__realize` and `Node.set` of a fresh `Leaf`. -/
def Tree_set (root : PItem) (pt : List String) (k : String) (arg : SetArg) : SetOut :=
  match root with
  | .leaf v => ⟨.leaf v, [], some .typeError⟩
  | .node es =>
      match arg with
      | .mv ps =>
          (match getNodeAt (.node es) ps with
           | some (.node srcEs) =>
               let evs0 := checkEvents (.node srcEs) ps
               if (upChain pt).any (fun q => q = ps) then
                 ⟨.node es, evs0, some .runtimeError⟩
               else
                 let r1 := realizeAt es pt []
                 (match r1.2.2 with
                  | some e => ⟨.node r1.1, evs0 ++ r1.2.1, some e⟩
                  | none =>
                      (match removeAt (.node r1.1) ps with
                       | some (root2, n) =>
                           ⟨setAt root2 pt k n, evs0 ++ r1.2.1, none⟩
                       | none => ⟨.node r1.1, evs0 ++ r1.2.1, some .keyError⟩))
           | some (.leaf _) =>
               -- `Move(source)` asserts `isinstance(source, Tree)`: a leaf
               -- value never reaches `_set` wrapped in a Move.
               ⟨.node es, [], some .assertionError⟩
           | none => ⟨.node es, [], some .keyError⟩)
      | .cp src =>
          if src = pt ++ [k] then ⟨.node es, [], none⟩
          else
            -- `__precheck` → `value.__check` → `value.__realize()`:
            -- realizes (and possibly creates) the source path first.
            let r0 := realizeAt es src []
            (match r0.2.2 with
             | some e => ⟨.node r0.1, r0.2.1, some e⟩
             | none =>
                 (match getNodeAt (.node r0.1) src with
                  | some srcItem =>
                      let evs1 := checkEvents srcItem src
                      let n := cloneItem srcItem
                      let r1 := realizeAt r0.1 pt []
                      (match r1.2.2 with
                       | some e => ⟨.node r1.1, r0.2.1 ++ evs1 ++ r1.2.1, some e⟩
                       | none =>
                           ⟨setAt (.node r1.1) pt k n,
                            r0.2.1 ++ evs1 ++ r1.2.1, none⟩)
                  | none => ⟨.node r0.1, r0.2.1, some .attributeError⟩))
      | .empty =>
          let r1 := realizeAt es pt []
          (match r1.2.2 with
           | some e => ⟨.node r1.1, r1.2.1, some e⟩
           | none => ⟨setAt (.node r1.1) pt k (.node []), r1.2.1, none⟩)
      | .val j =>
          let r1 := realizeAt es pt []
          (match r1.2.2 with
           | some e => ⟨.node r1.1, .validate pt k :: r1.2.1, some e⟩
           | none =>
               ⟨setAt (.node r1.1) pt k (.leaf j),
                .validate pt k :: r1.2.1, none⟩)

end TreeF

/-! ## Query engine (`tree.py`: `Tree.__query`, `Tree._query`)

Query expressions are character lists.  Chains accumulated by `__query`
are Python's nested pairs `(key, k)` with `None` at the bottom, modelled
as `List String` with the most recent key first (`join_path` is list
append, `path_unroll` is reversal).  The mutual recursion of `__query`
(`**` recurses both into children with the same suffix and into the same
node with the shorter suffix) is expressed with a fuel parameter that
strictly decreases at every call; `QUERY_FUEL` in `tquery` bounds the
recursion depth far above what any input in this development reaches, so
the fuel-exhaustion branches are never taken. -/

namespace TreeF

/-- A value produced by `Tree._get` during a query: a subtree façade for a
node entry, or the raw value of a leaf entry (the default schema's `pose`
returns `None`, so leaves are returned as values). -/
inductive QV where
  | qtree (t : PItem)
  | qval (v : JVal)

/-- `str.split(sep)` for a single-character separator. -/
def splitOnChar (c : Char) : List Char → List (List Char)
  | [] => [[]]
  | x :: xs =>
      let r := splitOnChar c xs
      if x = c then [] :: r
      else
        match r with
        | [] => [[x]]
        | y :: ys => (x :: y) :: ys

/-- `str.partition(sep)` for a single-character separator: the part before
the first occurrence, whether it occurred, and the part after. -/
def partitionChar (c : Char) : List Char → List Char × Bool × List Char
  | [] => ([], false, [])
  | x :: xs =>
      if x = c then ([], true, xs)
      else
        let r := partitionChar c xs
        (x :: r.1, r.2.1, r.2.2)

/-- `el.startswith('(') and el.endswith(')')` (tree.py line 501). -/
def isParen (el : List Char) : Bool :=
  el.head? = some '(' && el.getLast? = some ')'

/-- `el[1:-1]`. -/
def strip1 (el : List Char) : List Char := (el.drop 1).dropLast

/-- The query-path preprocessing of `Tree._query` (tree.py lines 500-505):
mark each segment with its parenthesization; if none is parenthesized,
keep all segments, otherwise strip the parentheses and keep exactly the
parenthesized ones. -/
def mkQPath (path : List (List Char)) : List (List Char × Bool) :=
  let q := path.map (fun el => (el, isParen el))
  if q.any (fun p => p.2) then
    q.map (fun p => (if p.2 then strip1 p.1 else p.1, p.2))
  else
    path.map (fun el => (el, true))

/-- `Tree._get` of a key during a query: node entries yield a subtree,
leaf entries yield their value. -/
def qget (es : List (String × PItem)) (key : String) : Option QV :=
  match lookupEntry es key with
  | some (.node es') => some (.qtree (.node es'))
  | some (.leaf v) => some (.qval v)
  | none => none

/-- The `'*'` segment literal. -/
def segStar : List Char := ['*']

/-- The `'**'` segment literal. -/
def segStarStar : List Char := ['*', '*']

mutual

/-- `Tree.__query` (tree.py lines 457-489): with an empty query path the
result is empty; otherwise the segment loop starts from
`r = [(None, self)]`. -/
def pyQuery (fuel : Nat) (t : PItem) (q : List (List Char × Bool)) :
    List (List String × QV) :=
  match fuel with
  | 0 => []
  | fuel + 1 =>
      match q with
      | [] => []
      | _ :: _ => qloop fuel [([], .qtree t)] [] q

/-- The `for i, (element, keep) in enumerate(qpath)` loop of `__query`:
process one segment over the current result list `r`, accumulating the
`f` contributions of `**` segments, and finally return `r + f`. -/
def qloop (fuel : Nat) (r f : List (List String × QV))
    (q : List (List Char × Bool)) : List (List String × QV) :=
  match fuel with
  | 0 => r ++ f
  | fuel + 1 =>
      match q with
      | [] => r ++ f
      | seg :: rest =>
          let p := qstep fuel r seg rest
          qloop fuel p.1 (f ++ p.2) rest

/-- The `for k, v in r` loop body of `__query` for one segment: returns
the `(s, f)` contributions.  Non-trees are skipped; `*`/`**` iterate the
node's keys; other segments match a literal key or a `{K1,K2,...}`
alternative (whose commas survive only in queries without a top-level
comma, as in the source). -/
def qstep (fuel : Nat) (r : List (List String × QV))
    (seg : List Char × Bool) (rest : List (List Char × Bool)) :
    List (List String × QV) × List (List String × QV) :=
  match fuel with
  | 0 => ([], [])
  | fuel + 1 =>
      match r with
      | [] => ([], [])
      | (kch, v) :: rtail =>
          let tailp := qstep fuel rtail seg rest
          match v with
          | .qval _ => tailp
          | .qtree (.leaf _) => tailp
          | .qtree (.node es) =>
              if seg.1 = segStar ∨ seg.1 = segStarStar then
                let c := qchildren fuel es kch seg rest
                let fextra :=
                  if seg.1 = segStarStar then pyQuery fuel (.node es) rest else []
                (c.1 ++ tailp.1, c.2 ++ fextra ++ tailp.2)
              else
                let keys :=
                  if seg.1.head? = some '{' ∧ seg.1.getLast? = some '}' then
                    splitOnChar ',' (strip1 seg.1)
                  else [seg.1]
                let contrib := keys.foldr (fun kc acc =>
                  match qget es (String.mk kc) with
                  | some vv =>
                      ((if seg.2 then String.mk kc :: kch else kch), vv) :: acc
                  | none => acc) []
                (contrib ++ tailp.1, tailp.2)

/-- The `for key in v.__node.keys()` inner loop of the `*`/`**` branch:
for `*` each child extends `s`; for `**` each node child contributes
`vv.__query(qpath[i:])` to `f` with its chains prefixed (the `f +=
v.__query(qpath[i+1:])` zero-level contribution — whose chains discard
`k`, as in the source — is added by the caller). -/
def qchildren (fuel : Nat) (es : List (String × PItem)) (kch : List String)
    (seg : List Char × Bool) (rest : List (List Char × Bool)) :
    List (List String × QV) × List (List String × QV) :=
  match fuel with
  | 0 => ([], [])
  | fuel + 1 =>
      match es with
      | [] => ([], [])
      | (key, it) :: etail =>
          let tailc := qchildren fuel etail kch seg rest
          let chain : List String := if seg.2 then key :: kch else kch
          let vv : QV :=
            match it with
            | .node es' => .qtree (.node es')
            | .leaf v => .qval v
          if seg.1 ≠ segStarStar then
            ((chain, vv) :: tailc.1, tailc.2)
          else
            match it with
            | .node _ =>
                let sub := pyQuery fuel it (seg :: rest)
                (tailc.1, sub.map (fun p => (p.1 ++ chain, p.2)) ++ tailc.2)
            | .leaf _ => tailc

end

/-- `{**a, **b}` followed by the size check of `_query` (tree.py lines
496-499): the merge fails with `RuntimeError('Name ellision conflict
(multi-exprs)')` exactly when a kept path occurs in both results. -/
def mergeResults (a b : List (List String × QV)) :
    Except PyError (List (List String × QV)) :=
  if b.any (fun p => a.any (fun q => q.1 = p.1)) then .error .runtimeError
  else .ok (a ++ b)

/-- Duplicate detection among kept paths: `len({...}) != len(r)`. -/
def hasDupKeys : List (List String) → Bool
  | [] => false
  | x :: xs => xs.contains x || hasDupKeys xs

/-- Fuel bound for `pyQuery`; far above the recursion depth of any query
in this development (each call strictly decreases the fuel). -/
def QUERY_FUEL : Nat := 1000

/-- `Tree._query` (tree.py lines 491-515) with the default `transform`
(identity) and `filter` (keep everything): split off a leading
comma-separated expression and merge recursively; otherwise split the
expression on `'.'`, preprocess with `mkQPath`, run `__query`, reverse
each chain (`path_unroll`) and fail with `RuntimeError('Name ellision
conflict')` when two matches produce the same kept path. -/
def tqueryF (fuel : Nat) (t : PItem) (expr : List Char) :
    Except PyError (List (List String × QV)) :=
  match fuel with
  | 0 => .error .runtimeError
  | fuel + 1 =>
      if (partitionChar ',' expr).2.1 = true then
        match tqueryF fuel t (partitionChar ',' expr).1 with
        | .error e => .error e
        | .ok a =>
            match tqueryF fuel t (partitionChar ',' expr).2.2 with
            | .error e => .error e
            | .ok b => mergeResults a b
      else
        let path := splitOnChar '.' expr
        let q := mkQPath path
        let r := pyQuery QUERY_FUEL t q
        let keys := r.map (fun pr => pr.1.reverse)
        if hasDupKeys keys then .error .runtimeError
        else .ok (r.map (fun pr => (pr.1.reverse, pr.2)))

/-- `Tree._query`: the recursion over comma-separated sub-expressions is
driven by a fuel of `expr.length + 1`; every recursive call is on a
strictly shorter expression (both parts of `partition` are shorter than
the whole), so the fuel never runs out. -/
def tquery (t : PItem) (expr : List Char) :
    Except PyError (List (List String × QV)) :=
  tqueryF (expr.length + 1) t expr

/-- The tree `{a: {b: 1, c: 2}, d: {b: 3}}` of the query scenario. -/
def exTree : PItem :=
  .node [("a", .node [("b", .leaf (.jnum 1)), ("c", .leaf (.jnum 2))]),
         ("d", .node [("b", .leaf (.jnum 3))])]

/-- A tree with the chain `root.a.b.c` of the move scenario. -/
def exChain : PItem :=
  .node [("a", .node [("b", .node [("c", .node [])])])]

end TreeF

/-! ## Lemmas: decimal digit strings -/

namespace Storage

theorem natDigitsAux_eq_of_lt :
    ∀ n m₁ m₂, n < m₁ → n < m₂ → natDigitsAux m₁ n = natDigitsAux m₂ n := by
  intro n
  induction n using Nat.strong_induction_on with
  | _ n ih =>
      intro m₁ m₂ h₁ h₂
      match m₁, m₂ with
      | m₁ + 1, m₂ + 1 =>
          simp only [natDigitsAux]
          split
          · rfl
          · rename_i hn
            have hd : n / 10 < n := Nat.div_lt_self (by omega) (by omega)
            rw [ih (n / 10) hd m₁ m₂ (by omega) (by omega)]

theorem natDigits_eq (n : Nat) :
    natDigits n = if n < 10 then [48 + n] else natDigits (n / 10) ++ [48 + n % 10] := by
  show natDigitsAux (n + 1) n = _
  simp only [natDigitsAux]
  split
  · rfl
  · rename_i hn
    have hd : n / 10 < n := Nat.div_lt_self (by omega) (by omega)
    rw [natDigitsAux_eq_of_lt (n / 10) n (n / 10 + 1) (by omega) (by omega)]
    rfl

theorem natDigits_ne_nil (n : Nat) : natDigits n ≠ [] := by
  rw [natDigits_eq]
  split <;> simp

theorem natDigits_mem (n : Nat) : ∀ d ∈ natDigits n, 48 ≤ d ∧ d ≤ 57 := by
  induction n using Nat.strong_induction_on with
  | _ n ih =>
      rw [natDigits_eq]
      split
      · rename_i hn
        intro d hd
        simp at hd
        omega
      · rename_i hn
        intro d hd
        simp at hd
        rcases hd with hd | hd
        · exact ih (n / 10) (Nat.div_lt_self (by omega) (by omega)) d hd
        · have := Nat.mod_lt n (show 0 < 10 by omega)
          omega

theorem digitsVal_foldl_acc (ds : List Nat) :
    ∀ a, ds.foldl (fun a d => a * 10 + (d - 48)) a = a * 10 ^ ds.length + digitsVal ds := by
  induction ds with
  | nil => intro a; simp [digitsVal]
  | cons d ds ih =>
      intro a
      show (ds.foldl _ (a * 10 + (d - 48))) = _
      rw [ih (a * 10 + (d - 48))]
      show _ = a * 10 ^ (ds.length + 1) + List.foldl _ (0 * 10 + (d - 48)) ds
      rw [ih (0 * 10 + (d - 48))]
      ring

theorem digitsVal_cons (d : Nat) (ds : List Nat) :
    digitsVal (d :: ds) = (d - 48) * 10 ^ ds.length + digitsVal ds := by
  show List.foldl _ (0 * 10 + (d - 48)) ds = _
  rw [digitsVal_foldl_acc ds (0 * 10 + (d - 48))]
  ring

theorem digitsVal_append (xs ys : List Nat) :
    digitsVal (xs ++ ys) = digitsVal xs * 10 ^ ys.length + digitsVal ys := by
  induction xs with
  | nil => simp [digitsVal]
  | cons x xs ih =>
      rw [List.cons_append, digitsVal_cons, ih, digitsVal_cons]
      simp [List.length_append]
      ring

theorem digitsVal_concat (xs : List Nat) (d : Nat) :
    digitsVal (xs ++ [d]) = digitsVal xs * 10 + (d - 48) := by
  rw [digitsVal_append]
  simp [digitsVal, digitsVal_cons]

theorem digitsVal_lt (ds : List Nat) (h : ∀ d ∈ ds, d ≤ 57) :
    digitsVal ds < 10 ^ ds.length := by
  induction ds with
  | nil => simp [digitsVal]
  | cons d ds ih =>
      rw [digitsVal_cons]
      have h1 : d - 48 ≤ 9 := by
        have := h d (by simp)
        omega
      have h2 : digitsVal ds < 10 ^ ds.length := ih (fun x hx => h x (by simp [hx]))
      have h3 : (d - 48) * 10 ^ ds.length ≤ 9 * 10 ^ ds.length :=
        Nat.mul_le_mul_right _ h1
      calc (d - 48) * 10 ^ ds.length + digitsVal ds
          < (d - 48) * 10 ^ ds.length + 10 ^ ds.length := by omega
        _ ≤ 9 * 10 ^ ds.length + 10 ^ ds.length := by omega
        _ = 10 ^ (ds.length + 1) := by ring
        _ = 10 ^ (d :: ds).length := by simp

theorem digitsVal_natDigits (n : Nat) : digitsVal (natDigits n) = n := by
  induction n using Nat.strong_induction_on with
  | _ n ih =>
      rw [natDigits_eq]
      split
      · rename_i hn
        show digitsVal [48 + n] = n
        simp [digitsVal]
      · rename_i hn
        rw [digitsVal_concat, ih (n / 10) (Nat.div_lt_self (by omega) (by omega))]
        omega

theorem natDigits_len_le (n k : Nat) (hk : 1 ≤ k) (h : n < 10 ^ k) :
    (natDigits n).length ≤ k := by
  induction n using Nat.strong_induction_on generalizing k with
  | _ n ih =>
      rw [natDigits_eq]
      split
      · simpa using hk
      · rename_i hn
        have hk2 : 2 ≤ k := by
          by_contra hc
          have : k = 1 := by omega
          subst this
          simp at h
          omega
        have hdiv : n / 10 < 10 ^ (k - 1) := by
          rw [Nat.div_lt_iff_lt_mul (by omega)]
          calc n < 10 ^ k := h
            _ = 10 ^ (k - 1) * 10 := by
                rw [← Nat.pow_succ]
                congr 1
                omega
        have := ih (n / 10) (Nat.div_lt_self (by omega) (by omega)) (k - 1)
          (by omega) hdiv
        simp only [List.length_append, List.length_cons, List.length_nil]
        omega

theorem natDigits_canonical :
    ∀ ds h tl, ds = h :: tl → (∀ x ∈ ds, 48 ≤ x ∧ x ≤ 57) → 49 ≤ h →
      natDigits (digitsVal ds) = ds := by
  intro ds
  induction ds using List.reverseRecOn with
  | nil => intro h tl hds; exact absurd hds (by simp)
  | append_singleton xs d ih =>
      intro h tl hds hdig hh
      cases xs with
      | nil =>
          have hd : d = h := by simpa using congrArg List.head? hds
          subst hd
          have hd1 : 48 ≤ d ∧ d ≤ 57 := hdig d (by simp)
          show natDigits (digitsVal [d]) = [d]
          have hv : digitsVal [d] = d - 48 := by simp [digitsVal]
          rw [hv, natDigits_eq]
          have hlt : d - 48 < 10 := by omega
          simp only [hlt, if_true]
          have : 48 + (d - 48) = d := by omega
          rw [this]
      | cons x xt =>
          have hx : x = h := by simpa using congrArg List.head? hds
          subst hx
          have hdig' : ∀ y ∈ x :: xt, 48 ≤ y ∧ y ≤ 57 := by
            intro y hy
            apply hdig
            simp only [List.cons_append, List.mem_cons, List.mem_append] at hy ⊢
            tauto
          have hv1 : 1 ≤ digitsVal (x :: xt) := by
            rw [digitsVal_cons]
            have h10 : 1 ≤ 10 ^ xt.length := Nat.one_le_pow _ _ (by omega)
            have hx1 : 1 ≤ x - 48 := by omega
            calc 1 = 1 * 1 := by omega
              _ ≤ (x - 48) * 10 ^ xt.length := Nat.mul_le_mul hx1 h10
              _ ≤ _ := by omega
          have hd : 48 ≤ d ∧ d ≤ 57 := by
            apply hdig
            simp
          rw [show (x :: xt) ++ [d] = (x :: xt) ++ [d] from rfl,
            digitsVal_concat, natDigits_eq]
          have hge : ¬ digitsVal (x :: xt) * 10 + (d - 48) < 10 := by
            have : 10 ≤ digitsVal (x :: xt) * 10 := by omega
            omega
          simp only [hge, if_false]
          have hdiv : (digitsVal (x :: xt) * 10 + (d - 48)) / 10 = digitsVal (x :: xt) := by
            omega
          have hmod : (digitsVal (x :: xt) * 10 + (d - 48)) % 10 = d - 48 := by
            omega
          rw [hdiv, hmod, ih x xt rfl hdig' hh]
          have : 48 + (d - 48) = d := by omega
          rw [this]

theorem digitsVal_replicate_zero (m : Nat) : digitsVal (List.replicate m 48) = 0 := by
  induction m with
  | zero => simp [digitsVal]
  | succ m ih =>
      rw [List.replicate_succ, digitsVal_cons, ih]
      simp

theorem digitsVal_fmtZeroPad (n w : Nat) : digitsVal (fmtZeroPad n w) = n := by
  unfold fmtZeroPad
  rw [digitsVal_append, digitsVal_replicate_zero, digitsVal_natDigits]
  simp

theorem fmtZeroPad_length (n w : Nat) (h : (natDigits n).length ≤ w) :
    (fmtZeroPad n w).length = w := by
  unfold fmtZeroPad
  simp [List.length_append, List.length_replicate]
  omega

theorem fmtZeroPad_isDigit (n w : Nat) : pyIsDigit (fmtZeroPad n w) = true := by
  unfold fmtZeroPad pyIsDigit
  have h1 : natDigits n ≠ [] := natDigits_ne_nil n
  rw [Bool.and_eq_true]
  constructor
  · simp [List.isEmpty_eq_true, List.append_eq_nil, h1]
  · rw [List.all_eq_true]
    intro d hd
    rcases List.mem_append.mp hd with hd | hd
    · have := List.eq_of_mem_replicate hd
      subst this
      simp
    · have := natDigits_mem n d hd
      simp
      omega

theorem fmtZeroPad_digitsVal_aux :
    ∀ ds, (∀ x ∈ ds, 48 ≤ x ∧ x ≤ 57) → ds ≠ [] →
      fmtZeroPad (digitsVal ds) ds.length = ds := by
  intro ds
  induction ds with
  | nil => intro _ hne; exact absurd rfl hne
  | cons d ds ih =>
      intro hmem _
      by_cases hds : ds = []
      · subst hds
        have hd := hmem d (by simp)
        have hv : digitsVal [d] = d - 48 := by simp [digitsVal]
        unfold fmtZeroPad
        rw [hv, natDigits_eq]
        have hlt : d - 48 < 10 := by omega
        simp only [hlt, if_true]
        have : 48 + (d - 48) = d := by omega
        rw [this]
        simp
      · by_cases hd48 : d = 48
        · subst hd48
          have hv : digitsVal (48 :: ds) = digitsVal ds := by
            rw [digitsVal_cons]
            simp
          have hlt : digitsVal ds < 10 ^ ds.length :=
            digitsVal_lt ds (fun x hx => (hmem x (by simp [hx])).2)
          have hlen : (natDigits (digitsVal ds)).length ≤ ds.length :=
            natDigits_len_le _ _ (by
              cases ds with
              | nil => exact absurd rfl hds
              | cons _ _ => simp) hlt
          have ihds := ih (fun x hx => hmem x (by simp [hx])) hds
          unfold fmtZeroPad at ihds ⊢
          rw [hv]
          have hlc : (48 :: ds).length = ds.length + 1 := by simp
          rw [hlc]
          have hrep : ds.length + 1 - (natDigits (digitsVal ds)).length
              = (ds.length - (natDigits (digitsVal ds)).length) + 1 := by omega
          rw [hrep, List.replicate_succ, List.cons_append, ihds]
        · have hd57 := hmem d (by simp)
          have hcan := natDigits_canonical (d :: ds) d ds rfl hmem (by omega)
          unfold fmtZeroPad
          rw [hcan]
          simp

theorem fmtZeroPad_digitsVal (ds : List Nat) (hdig : pyIsDigit ds = true) :
    fmtZeroPad (digitsVal ds) ds.length = ds := by
  have hmem : ∀ x ∈ ds, 48 ≤ x ∧ x ≤ 57 := by
    intro x hx
    unfold pyIsDigit at hdig
    rw [Bool.and_eq_true, List.all_eq_true] at hdig
    have := hdig.2 x hx
    simp at this
    omega
  have hne : ds ≠ [] := by
    intro hc
    subst hc
    simp [pyIsDigit] at hdig
  exact fmtZeroPad_digitsVal_aux ds hmem hne

/-! ## Lemmas: line reading and header parsing -/

theorem pyIsDigit_mem (ds : List Nat) (hdig : pyIsDigit ds = true) :
    ∀ x ∈ ds, 48 ≤ x ∧ x ≤ 57 := by
  intro x hx
  unfold pyIsDigit at hdig
  rw [Bool.and_eq_true, List.all_eq_true] at hdig
  have := hdig.2 x hx
  simp at this
  omega

theorem pyIsDigit_no_nl (ds : List Nat) (hdig : pyIsDigit ds = true) : 10 ∉ ds := by
  intro hc
  have := pyIsDigit_mem ds hdig 10 hc
  omega

theorem pyIsDigit_no_tab (ds : List Nat) (hdig : pyIsDigit ds = true) : 9 ∉ ds := by
  intro hc
  have := pyIsDigit_mem ds hdig 9 hc
  omega

theorem pyIsDigit_ne_nil (ds : List Nat) (hdig : pyIsDigit ds = true) : ds ≠ [] := by
  intro hc
  subst hc
  simp [pyIsDigit] at hdig

theorem IDENTIFIER_no_nl : (10 : Nat) ∉ IDENTIFIER := by decide

theorem IDENTIFIER_length : IDENTIFIER.length = 36 := by decide

theorem takeLine_append (xs rest : List Nat) (h : 10 ∉ xs) :
    takeLine (xs ++ 10 :: rest) = (xs ++ [10], rest) := by
  induction xs with
  | nil => simp [takeLine]
  | cons x xt ih =>
      have hx : x ≠ 10 := by
        intro hc
        exact h (by simp [hc])
      have ht : 10 ∉ xt := fun hc => h (by simp [hc])
      show takeLine (x :: (xt ++ 10 :: rest)) = _
      simp only [takeLine, hx, if_false]
      rw [ih ht]
      simp

theorem takeLine_no_nl (xs : List Nat) (h : 10 ∉ xs) : takeLine xs = (xs, []) := by
  induction xs with
  | nil => simp [takeLine]
  | cons x xt ih =>
      have hx : x ≠ 10 := by
        intro hc
        exact h (by simp [hc])
      have ht : 10 ∉ xt := fun hc => h (by simp [hc])
      simp only [takeLine, hx, if_false]
      rw [ih ht]

theorem pygetline_append (xs rest : List Nat) (h : 10 ∉ xs) :
    pygetline (xs ++ 10 :: rest) = .ok (some (xs ++ [10]), rest) := by
  have ht := takeLine_append xs rest h
  cases xs with
  | nil =>
      show pygetline (10 :: rest) = _
      unfold pygetline
      simp [takeLine]
  | cons x xt =>
      show pygetline (x :: (xt ++ 10 :: rest)) = _
      unfold pygetline
      have ht' : takeLine (x :: (xt ++ 10 :: rest)) = ((x :: xt) ++ [10], rest) := by
        simpa using ht
      simp only [ht']
      have hg : (x :: (xt ++ [10])).getLast? = some 10 := by
        show ((x :: xt) ++ [10]).getLast? = some 10
        rw [List.getLast?_append_cons]
        rfl
      simp [hg]

theorem pygetline_no_nl (xs : List Nat) (h : 10 ∉ xs) (hne : xs ≠ []) :
    pygetline xs = .error .runtimeError := by
  have ht := takeLine_no_nl xs h
  cases xs with
  | nil => exact absurd rfl hne
  | cons x xt =>
      unfold pygetline
      simp only [ht]
      have hl : (x :: xt).getLast? ≠ some 10 := by
        rw [List.getLast?_eq_getLast_of_ne_nil (by simp)]
        intro hc
        rw [Option.some.injEq] at hc
        have hm : (x :: xt).getLast (by simp) ∈ x :: xt := List.getLast_mem _
        rw [hc] at hm
        exact h hm
      simp [hl]

theorem parse_ok (ds : List Nat) (hdig : pyIsDigit ds = true)
    (h15 : ds.length ≤ 15) :
    parse_current_offset (ds ++ [10]) = .ok (digitsVal ds) := by
  have hne := pyIsDigit_ne_nil ds hdig
  have h1 : 1 ≤ ds.length := by
    cases ds with
    | nil => exact absurd rfl hne
    | cons _ _ => simp
  unfold parse_current_offset
  have hlen : (ds ++ [10]).length = ds.length + 1 := by simp
  have hcond : 2 ≤ (ds ++ [10]).length ∧ (ds ++ [10]).length ≤ MAX_HEADER + 1
      ∧ (ds ++ [10]).getLast? = some 10 ∧ pyIsDigit (ds ++ [10]).dropLast = true := by
    refine ⟨by simp [hlen]; omega, by simp [hlen, MAX_HEADER]; omega, ?_, ?_⟩
    · simp
    · rw [List.dropLast_concat]
      exact hdig
  have hne2 : ds ++ [10] ≠ [] := by simp
  rw [if_neg hne2, if_pos hcond, List.dropLast_concat]

/-! ## Lemmas: header operations on well-shaped files -/

theorem get_current_shape (ds body : List Nat) (hdig : pyIsDigit ds = true)
    (h15 : ds.length ≤ 15) :
    get_current (IDENTIFIER ++ 10 :: (ds ++ 10 :: body)) = .ok (digitsVal ds) := by
  unfold get_current
  rw [pygetline_append IDENTIFIER (ds ++ 10 :: body) IDENTIFIER_no_nl]
  simp only [List.dropLast_concat, ne_eq, not_true_eq_false, if_false,
    pygetline_append ds body (pyIsDigit_no_nl ds hdig)]
  simp only [Option.getD_some]
  exact parse_ok ds hdig h15

theorem set_current_write_shape (ds body : List Nat) (n : Nat)
    (hw : (natDigits n).length ≤ ds.length) :
    set_current_write (IDENTIFIER ++ 10 :: (ds ++ 10 :: body)) 37 (ds ++ [10]) n =
      .ok (IDENTIFIER ++ 10 :: (fmtZeroPad n ds.length ++ 10 :: body)) := by
  unfold set_current_write
  have hlen1 : (ds ++ [10]).length - 1 = ds.length := by simp
  rw [hlen1]
  have hpad : (fmtZeroPad n ds.length).length = ds.length := fmtZeroPad_length n _ hw
  have hcond : ¬ (fmtZeroPad n ds.length ++ [10]).length ≠ (ds ++ [10]).length := by
    simp [hpad]
  rw [if_neg hcond]
  congr 1
  have hfile : IDENTIFIER ++ 10 :: (ds ++ 10 :: body)
      = ((IDENTIFIER ++ [10]) ++ (ds ++ [10])) ++ body := by simp
  have hlen2 : ((IDENTIFIER ++ [10]) : List Nat).length = 37 := by
    simp [IDENTIFIER_length]
  have htake : (IDENTIFIER ++ 10 :: (ds ++ 10 :: body)).take 37 = IDENTIFIER ++ [10] := by
    rw [hfile, List.append_assoc]
    rw [← hlen2]
    exact List.take_left _ _
  have hlen3 : (((IDENTIFIER ++ [10]) ++ (ds ++ [10])) : List Nat).length
      = 37 + (fmtZeroPad n ds.length ++ [10]).length := by
    simp [IDENTIFIER_length, hpad]
    omega
  have hdrop : (IDENTIFIER ++ 10 :: (ds ++ 10 :: body)).drop
      (37 + (fmtZeroPad n ds.length ++ [10]).length) = body := by
    rw [hfile, ← hlen3]
    exact List.drop_left _ _
  rw [htake, hdrop]
  simp

theorem set_current_shape (ds body : List Nat) (n : Nat) (lease : Option Nat)
    (hdig : pyIsDigit ds = true) (h15 : ds.length ≤ 15) :
    set_current (IDENTIFIER ++ 10 :: (ds ++ 10 :: body)) n lease =
      match lease with
      | some v =>
          if digitsVal ds ≠ v then .error .concurrencyError
          else set_current_write (IDENTIFIER ++ 10 :: (ds ++ 10 :: body)) 37
            (ds ++ [10]) n
      | none => set_current_write (IDENTIFIER ++ 10 :: (ds ++ 10 :: body)) 37
          (ds ++ [10]) n := by
  unfold set_current
  rw [pygetline_append IDENTIFIER (ds ++ 10 :: body) IDENTIFIER_no_nl]
  simp only [List.dropLast_concat, ne_eq, not_true_eq_false, if_false,
    pygetline_append ds body (pyIsDigit_no_nl ds hdig)]
  simp only [Option.getD_some, parse_ok ds hdig h15]
  have hlen : ((IDENTIFIER ++ [10]) : List Nat).length = 37 := by
    simp [IDENTIFIER_length]
  rw [hlen]

theorem set_current_ok (ds body : List Nat) (n : Nat) (lease : Option Nat)
    (hdig : pyIsDigit ds = true) (h15 : ds.length ≤ 15)
    (hl : lease = none ∨ lease = some (digitsVal ds))
    (hw : (natDigits n).length ≤ ds.length) :
    set_current (IDENTIFIER ++ 10 :: (ds ++ 10 :: body)) n lease =
      .ok (IDENTIFIER ++ 10 :: (fmtZeroPad n ds.length ++ 10 :: body)) := by
  rw [set_current_shape ds body n lease hdig h15]
  rcases hl with hl | hl <;> subst hl
  · exact set_current_write_shape ds body n hw
  · simp only [ne_eq, not_true_eq_false, if_false]
    exact set_current_write_shape ds body n hw

theorem set_current_write_assert (ds body : List Nat) (n : Nat)
    (hw : ¬ (natDigits n).length ≤ ds.length) :
    set_current_write (IDENTIFIER ++ 10 :: (ds ++ 10 :: body)) 37 (ds ++ [10]) n
      = .error .assertionError := by
  unfold set_current_write
  have hlen1 : (ds ++ [10]).length - 1 = ds.length := by simp
  rw [hlen1]
  have hpadlen : (fmtZeroPad n ds.length ++ [10]).length ≠ (ds ++ [10]).length := by
    unfold fmtZeroPad
    simp
    omega
  rw [if_pos hpadlen]

theorem set_current_cas_iff (ds body : List Nat) (n v : Nat)
    (hdig : pyIsDigit ds = true) (h15 : ds.length ≤ 15) :
    set_current (IDENTIFIER ++ 10 :: (ds ++ 10 :: body)) n (some v)
      = .error .concurrencyError ↔ v ≠ digitsVal ds := by
  rw [set_current_shape ds body n (some v) hdig h15]
  constructor
  · intro h
    intro hc
    subst hc
    simp only [ne_eq, not_true_eq_false, if_false] at h
    by_cases hw : (natDigits n).length ≤ ds.length
    · rw [set_current_write_shape ds body n hw] at h
      exact Except.noConfusion h
    · rw [set_current_write_assert ds body n hw] at h
      exact PyError.noConfusion (Except.error.inj h)
  · intro h
    have : digitsVal ds ≠ v := fun hc => h hc.symm
    simp [this]

theorem set_current_ok_inv (ds body f' : List Nat) (n : Nat) (lease : Option Nat)
    (hdig : pyIsDigit ds = true) (h15 : ds.length ≤ 15)
    (h : set_current (IDENTIFIER ++ 10 :: (ds ++ 10 :: body)) n lease = .ok f') :
    f' = IDENTIFIER ++ 10 :: (fmtZeroPad n ds.length ++ 10 :: body)
      ∧ (natDigits n).length ≤ ds.length := by
  rw [set_current_shape ds body n lease hdig h15] at h
  have hwrite : set_current_write (IDENTIFIER ++ 10 :: (ds ++ 10 :: body)) 37
      (ds ++ [10]) n = .ok f' := by
    match lease with
    | none => exact h
    | some v =>
        by_cases hv : digitsVal ds ≠ v
        · simp [hv] at h
        · simp [hv] at h
          exact h
  by_cases hw : (natDigits n).length ≤ ds.length
  · rw [set_current_write_shape ds body n hw] at hwrite
    exact ⟨(Except.ok.inj hwrite).symm, hw⟩
  · exfalso
    rw [set_current_write_assert ds body n hw] at hwrite
    exact Except.noConfusion hwrite

/-! ## Lemmas: `load` -/

theorem load_of_eof (file : List Nat) (offset : Nat) (h : file.drop offset = []) :
    load file offset = .error .attributeError := by
  unfold load
  rw [h]
  rfl

theorem load_of_unterminated (file : List Nat) (offset : Nat)
    (h10 : 10 ∉ file.drop offset) (hne : file.drop offset ≠ []) :
    load file offset = .error .runtimeError := by
  unfold load
  rw [pygetline_no_nl _ h10 hne]

theorem load_of_line (file xs tail : List Nat) (offset : Nat)
    (hdrop : file.drop offset = xs ++ 10 :: tail) (h10 : 10 ∉ xs) :
    load file offset =
      if xs.head? ≠ some 9 then .error .corruptedFormat
      else if (xs.drop 1).contains 9 then .error .corruptedFormat
      else .ok (xs.drop 1) := by
  unfold load
  rw [hdrop, pygetline_append xs tail h10]
  cases xs with
  | nil => rfl
  | cons x xt =>
      have hline : (x :: xt) ++ [10] = x :: (xt ++ [10]) := rfl
      have hg : (x :: (xt ++ [10])).getLast? = some 10 := by
        rw [← hline, List.getLast?_append_cons]
        rfl
      rw [hline]
      by_cases hx : x = 9
      · subst hx
        simp only [List.head?_cons, ne_eq, not_true_eq_false, if_false, hg,
          List.drop_one, List.tail_cons]
        have htail : (9 :: (xt ++ [10]) : List Nat).tail = xt ++ [10] := rfl
        by_cases hmem : 9 ∈ xt
        · have hc : ((xt ++ [10] : List Nat).contains 9) = true := by
            simp [hmem]
          have hc2 : ((xt : List Nat).contains 9) = true := by simp [hmem]
          simp [hc, hc2]
        · have hc : ((xt ++ [10] : List Nat).contains 9) = false := by
            simpa using hmem
          have hc2 : ((xt : List Nat).contains 9) = false := by simpa using hmem
          simp [hc, hc2, List.dropLast_concat]
      · have hne : (some x ≠ some 9) := by simpa using hx
        simp [hne]

theorem store_load_roundtrip (file record : List Nat) (h2 : 2 ≤ file.length)
    (h9 : 9 ∉ record) (h10 : 10 ∉ record) :
    load (file ++ 9 :: (record ++ [10])) file.length = .ok record := by
  have hx : 9 :: (record ++ [10]) = (9 :: record) ++ 10 :: [] := by simp
  have hdrop : (file ++ 9 :: (record ++ [10])).drop file.length
      = (9 :: record) ++ 10 :: [] := by
    rw [List.drop_left]
    exact hx
  have h10' : 10 ∉ 9 :: record := by
    simp
    exact fun hc => h10 hc
  rw [load_of_line _ (9 :: record) [] file.length hdrop h10']
  have hc : ((record : List Nat).contains 9) = false := by simpa using h9
  simp [hc]
  exact h9

/-! ## Lemmas: `scan` -/

theorem scanLoop_recs (rs : List (List Nat)) (h : ∀ r ∈ rs, cleanRec r) :
    scanLoop (recsBytes rs) = .ok () := by
  induction rs with
  | nil => rw [show recsBytes [] = [] from rfl, scanLoop]
  | cons r rs ih =>
      have hr := h r (by simp)
      have h9 : 9 ∉ r := hr.1
      have h10 : 10 ∉ r := hr.2
      have hshape : recsBytes (r :: rs) = 9 :: (r ++ 10 :: recsBytes rs) := by
        simp [recsBytes, recLine]
      rw [hshape, scanLoop]
      have h10' : 10 ∉ 9 :: r := by
        simp
        exact fun hc => h10 hc
      have htl : takeLine (9 :: (r ++ 10 :: recsBytes rs))
          = ((9 :: r) ++ [10], recsBytes rs) := by
        have := takeLine_append (9 :: r) (recsBytes rs) h10'
        simpa using this
      simp only [htl]
      have hg : ((9 :: r) ++ [10] : List Nat).getLast? = some 10 := by
        rw [List.getLast?_append_cons]
        rfl
      have hh : ((9 :: r) ++ [10] : List Nat).head? = some 9 := rfl
      have hd1 : ((9 :: r) ++ [10] : List Nat).drop 1 = r ++ [10] := rfl
      have hc : ((r ++ [10] : List Nat).contains 9) = false := by simpa using h9
      simp only [hg, hh, hd1, hc, ne_eq, not_true_eq_false, if_false,
        Bool.false_eq_true, Option.some.injEq]
      exact ih (fun x hx => h x (by simp [hx]))

theorem scanLoop_mutant (rs1 : List (List Nat)) (r post : List Nat) (c : Nat)
    (h1 : ∀ x ∈ rs1, cleanRec x) (h9 : 9 ∉ r) (h10 : 10 ∉ r) (hc : c ≠ 9) :
    scanLoop (recsBytes rs1 ++ c :: (r ++ 10 :: post)) = .error .corruptedFormat := by
  induction rs1 with
  | nil =>
      rw [show recsBytes [] ++ c :: (r ++ 10 :: post) = c :: (r ++ 10 :: post) from by
        rw [show recsBytes [] = [] from rfl]
        simp]
      rw [scanLoop]
      by_cases hc10 : c = 10
      · subst hc10
        have htl : takeLine (10 :: (r ++ 10 :: post)) = ([10], r ++ 10 :: post) := by
          rw [takeLine]
          simp
        simp [htl]
      · have h10' : 10 ∉ c :: r := by
          intro hm
          rcases List.mem_cons.mp hm with hm | hm
          · exact hc10 hm.symm
          · exact h10 hm
        have htl : takeLine (c :: (r ++ 10 :: post))
            = ((c :: r) ++ [10], post) := by
          have := takeLine_append (c :: r) post h10'
          simpa using this
        simp only [htl]
        have hg : ((c :: r) ++ [10] : List Nat).getLast? = some 10 := by
          rw [List.getLast?_append_cons]
          rfl
        have hh : ((c :: r) ++ [10] : List Nat).head? = some c := rfl
        simp [hg, hh, hc]
  | cons x rs1 ih =>
      have hx := h1 x (by simp)
      have hshape : recsBytes (x :: rs1) ++ c :: (r ++ 10 :: post)
          = 9 :: (x ++ 10 :: (recsBytes rs1 ++ c :: (r ++ 10 :: post))) := by
        simp [recsBytes, recLine]
      rw [hshape, scanLoop]
      have h10' : 10 ∉ 9 :: x := by
        simp
        exact fun hcc => hx.2 hcc
      have htl : takeLine (9 :: (x ++ 10 :: (recsBytes rs1 ++ c :: (r ++ 10 :: post))))
          = ((9 :: x) ++ [10], recsBytes rs1 ++ c :: (r ++ 10 :: post)) := by
        have := takeLine_append (9 :: x) (recsBytes rs1 ++ c :: (r ++ 10 :: post)) h10'
        simpa using this
      simp only [htl]
      have hg : ((9 :: x) ++ [10] : List Nat).getLast? = some 10 := by
        rw [List.getLast?_append_cons]
        rfl
      have hh : ((9 :: x) ++ [10] : List Nat).head? = some 9 := rfl
      have hd1 : ((9 :: x) ++ [10] : List Nat).drop 1 = x ++ [10] := rfl
      have hcx : ((x ++ [10] : List Nat).contains 9) = false := by simpa using hx.1
      simp only [hg, hh, hd1, hcx, ne_eq, not_true_eq_false, if_false,
        Bool.false_eq_true, Option.some.injEq]
      exact ih (fun y hy => h1 y (by simp [hy]))

theorem scan_ne_nil (file : List Nat) (hne : file ≠ []) :
    scan file =
      (if (takeLine file).1.getLast? ≠ some 10 then .error .corruptedFormat
       else if (takeLine file).1.dropLast ≠ IDENTIFIER then .error .corruptedFormat
       else if (takeLine (takeLine file).2).1.getLast? ≠ some 10 then
         .error .corruptedFormat
       else
         match parse_current_offset (takeLine (takeLine file).2).1 with
         | .error e => .error e
         | .ok _ => scanLoop (takeLine (takeLine file).2).2) := by
  cases file with
  | nil => exact absurd rfl hne
  | cons b rest => rw [scan]

theorem scan_shape_ok (ds : List Nat) (rs : List (List Nat))
    (hdig : pyIsDigit ds = true) (h15 : ds.length ≤ 15)
    (hcl : ∀ r ∈ rs, cleanRec r) :
    scan (IDENTIFIER ++ 10 :: (ds ++ 10 :: recsBytes rs)) = .ok () := by
  have hne : IDENTIFIER ++ 10 :: (ds ++ 10 :: recsBytes rs) ≠ [] := by
    simp
  rw [scan_ne_nil _ hne]
  rw [takeLine_append IDENTIFIER _ IDENTIFIER_no_nl]
  have hg1 : (IDENTIFIER ++ [10] : List Nat).getLast? = some 10 := by
    rw [List.getLast?_append_cons]
    rfl
  rw [takeLine_append ds (recsBytes rs) (pyIsDigit_no_nl ds hdig)]
  have hg2 : (ds ++ [10] : List Nat).getLast? = some 10 := by
    rw [List.getLast?_append_cons]
    rfl
  simp only [hg1, hg2, List.dropLast_concat, ne_eq, not_true_eq_false, if_false]
  rw [parse_ok ds hdig h15]
  exact scanLoop_recs rs hcl

theorem scan_shape_mutant (ds : List Nat) (rs1 : List (List Nat))
    (r post : List Nat) (c : Nat)
    (hdig : pyIsDigit ds = true) (h15 : ds.length ≤ 15)
    (h1 : ∀ x ∈ rs1, cleanRec x) (h9 : 9 ∉ r) (h10 : 10 ∉ r) (hc : c ≠ 9) :
    scan (IDENTIFIER ++ 10 :: (ds ++ 10 :: (recsBytes rs1 ++ c :: (r ++ 10 :: post))))
      = .error .corruptedFormat := by
  have hne : IDENTIFIER ++ 10 :: (ds ++ 10 :: (recsBytes rs1 ++ c :: (r ++ 10 :: post)))
      ≠ [] := by simp
  rw [scan_ne_nil _ hne]
  rw [takeLine_append IDENTIFIER _ IDENTIFIER_no_nl]
  have hg1 : (IDENTIFIER ++ [10] : List Nat).getLast? = some 10 := by
    rw [List.getLast?_append_cons]
    rfl
  rw [takeLine_append ds _ (pyIsDigit_no_nl ds hdig)]
  have hg2 : (ds ++ [10] : List Nat).getLast? = some 10 := by
    rw [List.getLast?_append_cons]
    rfl
  simp only [hg1, hg2, List.dropLast_concat, ne_eq, not_true_eq_false, if_false]
  rw [parse_ok ds hdig h15]
  exact scanLoop_mutant rs1 r post c h1 h9 h10 hc

/-! ## Lemmas: the shape invariant of reachable files -/

theorem reachable_shape (f : List Nat) (h : Reachable f) : ShapeFile f := by
  induction h with
  | init =>
      refine ⟨fmtZeroPad 0 DEFAULT_HEADER, [], ?_, by decide, by decide, by simp⟩
      simp [initFile, recsBytes]
  | store_ok f r f' pos hre hok ih =>
      obtain ⟨ds, rs, hf, hlen, hdig, hcl⟩ := ih
      unfold pystore at hok
      by_cases hp : f.length < 2
      · rw [if_pos hp] at hok
        exact Except.noConfusion hok
      · rw [if_neg hp] at hok
        by_cases h9 : (r.contains 9) = true
        · rw [if_pos h9] at hok
          exact Except.noConfusion hok
        · rw [if_neg h9] at hok
          by_cases h10 : (r.contains 10) = true
          · rw [if_pos h10] at hok
            exact Except.noConfusion hok
          · rw [if_neg h10] at hok
            have hpair := Except.ok.inj hok
            have hf' : f' = f ++ 9 :: (r ++ [10]) := (congrArg Prod.fst hpair).symm
            refine ⟨ds, rs ++ [r], ?_, hlen, hdig, ?_⟩
            · rw [hf', hf]
              have hrec : recsBytes (rs ++ [r]) = recsBytes rs ++ (9 :: (r ++ [10])) := by
                simp [recsBytes, recLine]
              rw [hrec]
              simp
            · intro x hx
              rcases List.mem_append.mp hx with hx | hx
              · exact hcl x hx
              · have hxr : x = r := by simpa using hx
                subst hxr
                constructor
                · intro hm
                  exact h9 (by simpa using hm)
                · intro hm
                  exact h10 (by simpa using hm)
  | set_ok f n l f' hre hok ih =>
      obtain ⟨ds, rs, hf, hlen, hdig, hcl⟩ := ih
      subst hf
      obtain ⟨hf', hw⟩ := set_current_ok_inv ds _ f' n l hdig
        (by rw [hlen]; decide) hok
      refine ⟨fmtZeroPad n ds.length, rs, hf', ?_, fmtZeroPad_isDigit n _, hcl⟩
      rw [fmtZeroPad_length n _ hw]
      exact hlen

end Storage

/-! ## Lemmas: tree façade -/

namespace TreeF

theorem upsertItem_self (es : List (String × PItem)) (k : String) (v : PItem)
    (h : lookupEntry es k = some v) : upsertItem es k v = es := by
  induction es with
  | nil => simp [lookupEntry] at h
  | cons p rest ih =>
      obtain ⟨k', v'⟩ := p
      by_cases hk : k' = k
      · subst hk
        unfold lookupEntry at h
        rw [if_pos rfl] at h
        unfold upsertItem
        rw [if_pos rfl, Option.some.injEq] at *
        rw [h]
      · unfold lookupEntry at h
        rw [if_neg hk] at h
        unfold upsertItem
        rw [if_neg hk, ih h]

/-- `__realize` along a path whose nodes all exist does not change the
tree, creates nothing and raises nothing. -/
theorem realizeAt_noop (pt : List String) :
    ∀ (es es' : List (String × PItem)) (pre : List String),
      getNodeAt (.node es) pt = some (.node es') →
      realizeAt es pt pre = (es, [], none) := by
  induction pt with
  | nil => intro es es' pre _; rfl
  | cons k p ih =>
      intro es es' pre h
      unfold getNodeAt at h
      unfold realizeAt
      cases hl : lookupEntry es k with
      | none => rw [hl] at h; exact Option.noConfusion h
      | some it =>
          rw [hl] at h
          cases it with
          | leaf v =>
              dsimp only at h
              cases p with
              | nil =>
                  rw [show getNodeAt (PItem.leaf v) [] = some (PItem.leaf v) from rfl] at h
                  exact PItem.noConfusion (Option.some.inj h)
              | cons a q =>
                  rw [show getNodeAt (PItem.leaf v) (a :: q) = none from rfl] at h
                  exact Option.noConfusion h
          | node es0 =>
              dsimp only at h ⊢
              rw [ih es0 es' (pre ++ [k]) h]
              simp [upsertItem_self es k (.node es0) hl]

/-- Membership in the ancestor chain is exactly the prefix relation. -/
theorem upChain_mem_of_take (pt ps : List String) (h : pt.take ps.length = ps) :
    ps ∈ upChain pt := by
  have hle : ps.length ≤ pt.length := by
    have := congrArg List.length h
    simp at this
    omega
  unfold upChain
  rw [List.mem_map]
  refine ⟨pt.length - ps.length, ?_, ?_⟩
  · rw [List.mem_range]
    omega
  · rw [show pt.length - (pt.length - ps.length) = ps.length from by omega]
    exact h

theorem upChain_any (pt ps : List String) (h : pt.take ps.length = ps) :
    ((upChain pt).any (fun q => q = ps)) = true := by
  rw [List.any_eq_true]
  exact ⟨ps, upChain_mem_of_take pt ps h, by simp⟩

end TreeF

/-! ## Claim theorems -/

/-- C2: round-trip of the record log.  For every byte string `record`
containing neither TAB (9) nor NL (10), if `store` on a valid storage
(one holding at least the minimal header, as asserted by `store` itself)
returns the offset `pos` and the new file `f'`, then `load f' pos`
returns exactly `record`. -/
theorem C2_store_load_roundtrip (file record f' : List Nat) (pos : Nat)
    (h : Storage.pystore file record = .ok (f', pos)) :
    Storage.load f' pos = .ok record := by
  unfold Storage.pystore at h
  by_cases hp : file.length < 2
  · rw [if_pos hp] at h
    exact Except.noConfusion h
  · rw [if_neg hp] at h
    by_cases h9 : (record.contains 9) = true
    · rw [if_pos h9] at h
      exact Except.noConfusion h
    · rw [if_neg h9] at h
      by_cases h10 : (record.contains 10) = true
      · rw [if_pos h10] at h
        exact Except.noConfusion h
      · rw [if_neg h10] at h
        have hpair := Except.ok.inj h
        have hf' : f' = file ++ 9 :: (record ++ [10]) := (congrArg Prod.fst hpair).symm
        have hpos : pos = file.length := (congrArg Prod.snd hpair).symm
        subst hf'
        subst hpos
        exact Storage.store_load_roundtrip file record (by omega)
          (fun hm => h9 (by simpa using hm)) (fun hm => h10 (by simpa using hm))

/-- C2 witness: storing the record `"A"` (byte 65) on a fresh storage
returns offset 53, and loading offset 53 returns the record. -/
theorem C2_witness :
    Storage.pystore Storage.initFile [65]
      = .ok (Storage.initFile ++ 9 :: ([65] ++ [10]), 53)
    ∧ Storage.load (Storage.initFile ++ 9 :: ([65] ++ [10])) 53 = .ok [65] := by
  constructor
  · rfl
  · exact C2_store_load_roundtrip Storage.initFile [65] _ 53 (by rfl)

/-- C3 counterexample: on a freshly initialized storage (a valid file),
`load` at offset 53 — the end of the file — raises `AttributeError`
(`None.startswith` inside `load`, since `_getline` returns `None` at end
of file), not `CorruptedFormat` as the claim states for an offset at or
past end of file. -/
theorem C3_counterexample :
    Storage.load Storage.initFile 53 = .error .attributeError
    ∧ Storage.load Storage.initFile 53 ≠ .error .corruptedFormat := by
  constructor
  · rfl
  · intro hc
    have h1 : Storage.load Storage.initFile 53 = .error .attributeError := rfl
    rw [h1] at hc
    exact PyError.noConfusion (Except.error.inj hc)

/-- C3 amended: `load(offset)` raises `CorruptedFormat` exactly for the
in-line structural violations — a line that does not start with TAB, or
contains a second TAB — and returns the inner bytes otherwise; but an
offset at or past end of file raises `AttributeError`, and a truncated
tail (no terminating NL) raises a plain `RuntimeError` from `_getline`,
neither of which is `CorruptedFormat`. -/
theorem C3_load_characterization :
    (∀ (file : List Nat) (offset : Nat), file.drop offset = [] →
      Storage.load file offset = .error .attributeError)
    ∧ (∀ (file : List Nat) (offset : Nat), file.drop offset ≠ [] →
        10 ∉ file.drop offset → Storage.load file offset = .error .runtimeError)
    ∧ (∀ (file xs tail : List Nat) (offset : Nat),
        file.drop offset = xs ++ 10 :: tail → 10 ∉ xs → xs.head? ≠ some 9 →
        Storage.load file offset = .error .corruptedFormat)
    ∧ (∀ (file xs tail : List Nat) (offset : Nat),
        file.drop offset = 9 :: (xs ++ 10 :: tail) → 10 ∉ xs → 9 ∈ xs →
        Storage.load file offset = .error .corruptedFormat)
    ∧ (∀ (file xs tail : List Nat) (offset : Nat),
        file.drop offset = 9 :: (xs ++ 10 :: tail) → 10 ∉ xs → 9 ∉ xs →
        Storage.load file offset = .ok xs) := by
  refine ⟨?_, ?_, ?_, ?_, ?_⟩
  · intro file offset h
    exact Storage.load_of_eof file offset h
  · intro file offset hne h10
    exact Storage.load_of_unterminated file offset h10 hne
  · intro file xs tail offset hdrop h10 hhead
    rw [Storage.load_of_line file xs tail offset hdrop h10]
    simp [hhead]
  · intro file xs tail offset hdrop h10 h9
    have h10' : 10 ∉ 9 :: xs := by
      intro hm
      rcases List.mem_cons.mp hm with hm | hm
      · exact absurd hm (by omega)
      · exact h10 hm
    have hdrop' : file.drop offset = (9 :: xs) ++ 10 :: tail := by simpa using hdrop
    rw [Storage.load_of_line file (9 :: xs) tail offset hdrop' h10']
    have hc : ((xs : List Nat).contains 9) = true := by simpa using h9
    simp [hc]
    exact h9
  · intro file xs tail offset hdrop h10 h9
    have h10' : 10 ∉ 9 :: xs := by
      intro hm
      rcases List.mem_cons.mp hm with hm | hm
      · exact absurd hm (by omega)
      · exact h10 hm
    have hdrop' : file.drop offset = (9 :: xs) ++ 10 :: tail := by simpa using hdrop
    rw [Storage.load_of_line file (9 :: xs) tail offset hdrop' h10']
    have hc : ((xs : List Nat).contains 9) = false := by simpa using h9
    simp [hc]
    exact h9

/-- C3 witness: each branch of the characterization at a concrete input:
offset at end of file (`AttributeError`), truncated tail (`RuntimeError`),
missing TAB marker and inner TAB (`CorruptedFormat`), and a well-formed
record. -/
theorem C3_witness :
    Storage.load Storage.initFile 54 = .error .attributeError
    ∧ Storage.load (Storage.initFile ++ [9, 65]) 53 = .error .runtimeError
    ∧ Storage.load (Storage.initFile ++ [32, 65, 10]) 53 = .error .corruptedFormat
    ∧ Storage.load (Storage.initFile ++ [9, 65, 9, 10]) 53 = .error .corruptedFormat
    ∧ Storage.load (Storage.initFile ++ [9, 65, 10]) 53 = .ok [65] := by
  refine ⟨?_, ?_, ?_, ?_, ?_⟩
  · exact C3_load_characterization.1 Storage.initFile 54 (by decide)
  · exact C3_load_characterization.2.1 (Storage.initFile ++ [9, 65]) 53
      (by decide) (by decide)
  · exact C3_load_characterization.2.2.1 (Storage.initFile ++ [32, 65, 10])
      [32, 65] [] 53 (by decide) (by decide) (by decide)
  · exact C3_load_characterization.2.2.2.1 (Storage.initFile ++ [9, 65, 9, 10])
      [65, 9] [] 53 (by decide) (by decide) (by decide)
  · exact C3_load_characterization.2.2.2.2 (Storage.initFile ++ [9, 65, 10])
      [65] [] 53 (by decide) (by decide) (by decide)

/-- C5 counterexample: on a file whose second line is the single digit `1`
with no terminating NL — a line that is not `width` digits followed by
`'\n'`, for which the claim requires `CorruptedFormat` — `get_current`
raises a plain `RuntimeError` (`'Unterminated line'` inside `_getline`)
instead. -/
theorem C5_counterexample :
    Storage.get_current (Storage.IDENTIFIER ++ [10, 49]) = .error .runtimeError
    ∧ Storage.get_current (Storage.IDENTIFIER ++ [10, 49]) ≠ .error .corruptedFormat := by
  constructor
  · rfl
  · intro hc
    have h1 : Storage.get_current (Storage.IDENTIFIER ++ [10, 49])
        = .error .runtimeError := rfl
    rw [h1] at hc
    exact PyError.noConfusion (Except.error.inj hc)

/-- C5 amended: when the second line of the file is NL-terminated,
`get_current` returns its parsed integer value exactly when the line is
1-15 digits followed by `'\n'` (the width of a root line never exceeds
`MAX_HEADER = 15`), and raises `CorruptedFormat` otherwise; however a file
with no second line raises `AssertionError` (`assert line, 'Empty
storage?'`) and an unterminated second line raises a plain
`RuntimeError`, not `CorruptedFormat`. -/
theorem C5_get_current_characterization :
    (∀ ds body : List Nat, 10 ∉ ds →
      Storage.get_current (Storage.IDENTIFIER ++ 10 :: (ds ++ 10 :: body)) =
        (if Storage.pyIsDigit ds = true ∧ ds.length ≤ 15
         then .ok (Storage.digitsVal ds) else .error .corruptedFormat))
    ∧ (∀ data : List Nat, data ≠ [] → 10 ∉ data →
        Storage.get_current (Storage.IDENTIFIER ++ 10 :: data) = .error .runtimeError)
    ∧ Storage.get_current (Storage.IDENTIFIER ++ [10]) = .error .assertionError := by
  refine ⟨?_, ?_, ?_⟩
  · intro ds body h10
    unfold Storage.get_current
    rw [Storage.pygetline_append Storage.IDENTIFIER (ds ++ 10 :: body)
      Storage.IDENTIFIER_no_nl]
    simp only [List.dropLast_concat, ne_eq, not_true_eq_false, if_false,
      Storage.pygetline_append ds body h10, Option.getD_some]
    by_cases hcond : Storage.pyIsDigit ds = true ∧ ds.length ≤ 15
    · rw [if_pos hcond]
      exact Storage.parse_ok ds hcond.1 hcond.2
    · rw [if_neg hcond]
      unfold Storage.parse_current_offset
      have hne : ds ++ [10] ≠ [] := by simp
      rw [if_neg hne]
      have hfail : ¬ (2 ≤ (ds ++ [10]).length ∧ (ds ++ [10]).length ≤ Storage.MAX_HEADER + 1
          ∧ (ds ++ [10]).getLast? = some 10
          ∧ Storage.pyIsDigit (ds ++ [10]).dropLast = true) := by
        intro hcc
        apply hcond
        rw [List.dropLast_concat] at hcc
        refine ⟨hcc.2.2.2, ?_⟩
        have := hcc.2.1
        simp [Storage.MAX_HEADER] at this
        omega
      rw [if_neg hfail]
  · intro data hne h10
    unfold Storage.get_current
    rw [Storage.pygetline_append Storage.IDENTIFIER data Storage.IDENTIFIER_no_nl]
    simp only [List.dropLast_concat, ne_eq, not_true_eq_false, if_false,
      Storage.pygetline_no_nl data h10 hne]
  · rfl

/-- C5 witness: a well-formed 3-digit root line parses to its value, a
non-digit root line raises `CorruptedFormat`, an unterminated second line
raises `RuntimeError`. -/
theorem C5_witness :
    Storage.get_current (Storage.IDENTIFIER ++ 10 :: ([48, 49, 50] ++ 10 :: []))
      = .ok 12
    ∧ Storage.get_current (Storage.IDENTIFIER ++ 10 :: ([65] ++ 10 :: []))
      = .error .corruptedFormat
    ∧ Storage.get_current (Storage.IDENTIFIER ++ 10 :: [49])
      = .error .runtimeError := by
  refine ⟨?_, ?_, ?_⟩
  · have h := C5_get_current_characterization.1 [48, 49, 50] [] (by decide)
    rw [h]
    rfl
  · have h := C5_get_current_characterization.1 [65] [] (by decide)
    rw [h]
    rfl
  · exact C5_get_current_characterization.2.1 [49] (by decide) (by decide)

/-- C4 counterexample: the file obtained from a fresh storage by storing
the record `"A"` is legal (`Reachable`); changing the single content byte
65 at offset 54 (inside the record line) to 66 yields a file that
`scan()` still accepts, so not every single-byte mutation inside a record
line is detected. -/
theorem C4_counterexample :
    Storage.Reachable (Storage.initFile ++ [9, 65, 10])
    ∧ (Storage.initFile ++ [9, 65, 10]).get? 54 = some 65
    ∧ (Storage.initFile ++ [9, 65, 10]).set 54 66 = Storage.initFile ++ [9, 66, 10]
    ∧ Storage.scan (Storage.initFile ++ [9, 66, 10]) = .ok () := by
  refine ⟨?_, by decide, by decide, ?_⟩
  · exact Storage.Reachable.store_ok Storage.initFile [65] _ 53
      Storage.Reachable.init (by rfl)
  · have h := Storage.scan_shape_ok (Storage.fmtZeroPad 0 15) [[66]]
      (by decide) (by decide)
      (by
        intro r hr
        have hr66 : r = [66] := by simpa using hr
        subst hr66
        exact ⟨by decide, by decide⟩)
    have hshape : Storage.initFile ++ [9, 66, 10]
        = Storage.IDENTIFIER ++ 10 :: (Storage.fmtZeroPad 0 15
            ++ 10 :: Storage.recsBytes [[66]]) := by decide
    rw [hshape]
    exact h

/-- C4 amended: `scan()` succeeds on every file produced from a freshly
initialized storage by any sequence of legal `store`/`set_current` calls.
Single-byte mutations are, however, only detected when they break the
framing: in particular, changing the leading TAB of any record line to
any other byte makes `scan()` raise `CorruptedFormat`, while changing a
record content byte to another non-TAB, non-NL byte produces another
well-formed file that `scan()` accepts (the counterexample above). -/
theorem C4_scan :
    (∀ f, Storage.Reachable f → Storage.scan f = .ok ())
    ∧ (∀ (ds : List Nat) (rs1 : List (List Nat)) (r post : List Nat) (c : Nat),
        Storage.pyIsDigit ds = true → ds.length ≤ 15 →
        (∀ x ∈ rs1, Storage.cleanRec x) → 9 ∉ r → 10 ∉ r → c ≠ 9 →
        Storage.scan (Storage.IDENTIFIER ++ 10 :: (ds ++ 10 ::
          (Storage.recsBytes rs1 ++ c :: (r ++ 10 :: post))))
          = .error .corruptedFormat) := by
  constructor
  · intro f hre
    obtain ⟨ds, rs, hf, hlen, hdig, hcl⟩ := Storage.reachable_shape f hre
    subst hf
    exact Storage.scan_shape_ok ds rs hdig (by rw [hlen]; decide) hcl
  · intro ds rs1 r post c hdig h15 h1 h9 h10 hc
    exact Storage.scan_shape_mutant ds rs1 r post c hdig h15 h1 h9 h10 hc

/-- C4 witness: `scan` accepts the fresh storage file, and flipping the
record TAB of a stored record to a space (byte 32) is detected. -/
theorem C4_witness :
    Storage.scan Storage.initFile = .ok ()
    ∧ Storage.scan (Storage.IDENTIFIER ++ 10 :: (Storage.fmtZeroPad 0 15
        ++ 10 :: (Storage.recsBytes [] ++ 32 :: ([65] ++ 10 :: []))))
      = .error .corruptedFormat := by
  constructor
  · exact C4_scan.1 Storage.initFile Storage.Reachable.init
  · exact C4_scan.2 (Storage.fmtZeroPad 0 15) [] [65] [] 32
      (by decide) (by decide) (by intro x hx; simp at hx)
      (by decide) (by decide) (by decide)

/-- C10: a commit with no pending modifications is a no-op on the tree
but still performs the CAS write.  On any valid file (identifier line, a
root line of 1-15 digits with value `R`, arbitrary record area), a store
opened with no mutations holds the integer root `R`; its `commit`
succeeds, returns `R`, rewrites the root line with the identical bytes
(fixed-width decimal representations are unique), and leaves the file —
every record line included — byte-for-byte unchanged. -/
theorem C10_commit_unchanged (ds body : List Nat)
    (hdig : Storage.pyIsDigit ds = true) (h15 : ds.length ≤ 15) :
    RStore.Store_open (Storage.IDENTIFIER ++ 10 :: (ds ++ 10 :: body))
      = .ok ⟨Storage.digitsVal ds, .asInt (Storage.digitsVal ds)⟩
    ∧ RStore.Store_commit (Storage.IDENTIFIER ++ 10 :: (ds ++ 10 :: body))
        ⟨Storage.digitsVal ds, .asInt (Storage.digitsVal ds)⟩
      = (Storage.IDENTIFIER ++ 10 :: (ds ++ 10 :: body),
         ⟨Storage.digitsVal ds, .asInt (Storage.digitsVal ds)⟩,
         .ok (Storage.digitsVal ds)) := by
  have hmemle : ∀ x ∈ ds, x ≤ 57 := fun x hx => (Storage.pyIsDigit_mem ds hdig x hx).2
  have hne := Storage.pyIsDigit_ne_nil ds hdig
  have h1 : 1 ≤ ds.length := by
    cases ds with
    | nil => exact absurd rfl hne
    | cons _ _ => simp
  have hlt : Storage.digitsVal ds < 10 ^ ds.length := Storage.digitsVal_lt ds hmemle
  have hw : (Storage.natDigits (Storage.digitsVal ds)).length ≤ ds.length :=
    Storage.natDigits_len_le _ _ h1 hlt
  have hsc : Storage.set_current (Storage.IDENTIFIER ++ 10 :: (ds ++ 10 :: body))
      (Storage.digitsVal ds) (some (Storage.digitsVal ds))
      = .ok (Storage.IDENTIFIER ++ 10 :: (ds ++ 10 :: body)) := by
    have h := Storage.set_current_ok ds body (Storage.digitsVal ds)
      (some (Storage.digitsVal ds)) hdig h15 (Or.inr rfl) hw
    rw [h, Storage.fmtZeroPad_digitsVal ds hdig]
  constructor
  · unfold RStore.Store_open
    rw [Storage.get_current_shape ds body hdig h15]
  · unfold RStore.Store_commit
    dsimp only
    rw [hsc]

/-- C10 witness: on a valid file with root line `005` and one record,
`commit` with no pending modifications returns 5 and leaves the file
unchanged. -/
theorem C10_witness :
    RStore.Store_open (Storage.IDENTIFIER ++ 10 :: ([48, 48, 53] ++ 10 :: [9, 65, 10]))
      = .ok ⟨5, .asInt 5⟩
    ∧ RStore.Store_commit (Storage.IDENTIFIER ++ 10 :: ([48, 48, 53] ++ 10 :: [9, 65, 10]))
        ⟨5, .asInt 5⟩
      = (Storage.IDENTIFIER ++ 10 :: ([48, 48, 53] ++ 10 :: [9, 65, 10]),
         ⟨5, .asInt 5⟩, .ok 5) := by
  have h := C10_commit_unchanged [48, 48, 53] [9, 65, 10] (by decide) (by decide)
  have hv : Storage.digitsVal [48, 48, 53] = 5 := by decide
  rw [hv] at h
  exact h

/-- C1: commit is compare-and-swap.  `Store.commit` passes the root
observed at open (or at the last successful commit) as the lease to
`Storage.set_current`, which raises `ConcurrencyError` exactly when the
on-disk root differs from the lease (the final conjunct) and in that case
performs no write.  Hence for two handles A and B opened on the same
valid file with root `R`: A assigns a fresh leaf root and commits — the
leaf is persisted at offset `R' = 53 + body.length` (the end of the
file), the root line is rewritten to `R'`, and A's observed root becomes
`R'`; B's subsequent commit from `R ≠ R'` raises `ConcurrencyError` and
leaves the file, its root pointer included, unchanged. -/
theorem C1_commit_cas (ds body j : List Nat)
    (hlen : ds.length = 15) (hdig : Storage.pyIsDigit ds = true)
    (h9 : 9 ∉ j) (h10 : 10 ∉ j)
    (hw : (Storage.natDigits (53 + body.length)).length ≤ 15)
    (hne : Storage.digitsVal ds ≠ 53 + body.length) :
    RStore.Store_open (Storage.IDENTIFIER ++ 10 :: (ds ++ 10 :: body))
      = .ok ⟨Storage.digitsVal ds, .asInt (Storage.digitsVal ds)⟩
    ∧ RStore.Store_commit (Storage.IDENTIFIER ++ 10 :: (ds ++ 10 :: body))
        ⟨Storage.digitsVal ds, .asItem ⟨j, none, true⟩⟩
      = (Storage.IDENTIFIER ++ 10 :: (Storage.fmtZeroPad (53 + body.length) 15
           ++ 10 :: (body ++ 9 :: ((61 :: j) ++ [10]))),
         ⟨53 + body.length, .asItem ⟨j, some (53 + body.length), true⟩⟩,
         .ok (53 + body.length))
    ∧ Storage.get_current (Storage.IDENTIFIER ++ 10 ::
        (Storage.fmtZeroPad (53 + body.length) 15
           ++ 10 :: (body ++ 9 :: ((61 :: j) ++ [10]))))
      = .ok (53 + body.length)
    ∧ RStore.Store_commit (Storage.IDENTIFIER ++ 10 ::
        (Storage.fmtZeroPad (53 + body.length) 15
           ++ 10 :: (body ++ 9 :: ((61 :: j) ++ [10]))))
        ⟨Storage.digitsVal ds, .asInt (Storage.digitsVal ds)⟩
      = (Storage.IDENTIFIER ++ 10 :: (Storage.fmtZeroPad (53 + body.length) 15
           ++ 10 :: (body ++ 9 :: ((61 :: j) ++ [10]))),
         ⟨Storage.digitsVal ds, .asInt (Storage.digitsVal ds)⟩,
         .error .concurrencyError)
    ∧ (∀ n lease, Storage.set_current (Storage.IDENTIFIER ++ 10 :: (ds ++ 10 :: body))
        n (some lease) = .error .concurrencyError ↔ lease ≠ Storage.digitsVal ds) := by
  have h15 : ds.length ≤ 15 := by omega
  have hflen : (Storage.IDENTIFIER ++ 10 :: (ds ++ 10 :: body)).length
      = 53 + body.length := by
    simp [Storage.IDENTIFIER_length, hlen]
    omega
  have hpad15 : (Storage.fmtZeroPad (53 + body.length) 15).length = 15 :=
    Storage.fmtZeroPad_length _ _ hw
  refine ⟨?_, ?_, ?_, ?_, ?_⟩
  · unfold RStore.Store_open
    rw [Storage.get_current_shape ds body hdig h15]
  · -- A's commit: persist the leaf, then CAS from R to R'.
    unfold RStore.Store_commit
    dsimp only
    have hclean9 : ((61 :: j : List Nat).contains 9) = false := by
      have hm9 : (9 : Nat) ∉ 61 :: j := by
        intro hm
        rcases List.mem_cons.mp hm with hm | hm
        · omega
        · exact h9 hm
      simpa using hm9
    have hclean10 : ((61 :: j : List Nat).contains 10) = false := by
      have hm10 : (10 : Nat) ∉ 61 :: j := by
        intro hm
        rcases List.mem_cons.mp hm with hm | hm
        · omega
        · exact h10 hm
      simpa using hm10
    have hstore : Storage.pystore (Storage.IDENTIFIER ++ 10 :: (ds ++ 10 :: body))
        (61 :: j)
        = .ok (Storage.IDENTIFIER ++ 10 :: (ds ++ 10 :: body)
            ++ 9 :: ((61 :: j) ++ [10]), 53 + body.length) := by
      unfold Storage.pystore
      rw [if_neg (by omega : ¬ (Storage.IDENTIFIER ++ 10 :: (ds ++ 10 :: body)).length < 2)]
      rw [if_neg (by rw [hclean9]; simp)]
      rw [if_neg (by rw [hclean10]; simp)]
      rw [hflen]
    have hpersist : RStore.persistLeaf (Storage.IDENTIFIER ++ 10 :: (ds ++ 10 :: body))
        ⟨j, none, true⟩
        = .ok (Storage.IDENTIFIER ++ 10 :: (ds ++ 10 :: body)
            ++ 9 :: ((61 :: j) ++ [10]),
           ⟨j, some (53 + body.length), true⟩) := by
      unfold RStore.persistLeaf
      simp only [Bool.not_true, Bool.false_eq_true, if_false, ne_eq,
        not_true_eq_false, if_neg]
      rw [hstore]
    simp only [if_true]
    rw [hpersist]
    dsimp only
    have hassoc : Storage.IDENTIFIER ++ 10 :: (ds ++ 10 :: body)
        ++ 9 :: ((61 :: j) ++ [10])
        = Storage.IDENTIFIER ++ 10 :: (ds ++ 10 ::
            (body ++ 9 :: ((61 :: j) ++ [10]))) := by
      simp
    rw [hassoc]
    have hsc := Storage.set_current_ok ds (body ++ 9 :: ((61 :: j) ++ [10]))
      (53 + body.length) (some (Storage.digitsVal ds)) hdig h15 (Or.inr rfl)
      (by rw [hlen]; exact hw)
    rw [hlen] at hsc
    rw [hsc]
  · rw [Storage.get_current_shape (Storage.fmtZeroPad (53 + body.length) 15)
      (body ++ 9 :: ((61 :: j) ++ [10])) (Storage.fmtZeroPad_isDigit _ _)
      (by rw [hpad15])]
    rw [Storage.digitsVal_fmtZeroPad]
  · unfold RStore.Store_commit
    dsimp only
    have hcas : Storage.set_current (Storage.IDENTIFIER ++ 10 ::
        (Storage.fmtZeroPad (53 + body.length) 15
           ++ 10 :: (body ++ 9 :: ((61 :: j) ++ [10]))))
        (Storage.digitsVal ds) (some (Storage.digitsVal ds))
        = .error .concurrencyError := by
      rw [Storage.set_current_cas_iff (Storage.fmtZeroPad (53 + body.length) 15)
        (body ++ 9 :: ((61 :: j) ++ [10])) (Storage.digitsVal ds)
        (Storage.digitsVal ds) (Storage.fmtZeroPad_isDigit _ _) (by rw [hpad15])]
      rw [Storage.digitsVal_fmtZeroPad]
      exact hne
    rw [hcas]
  · intro n lease
    exact Storage.set_current_cas_iff ds body n lease hdig h15

/-- C1 witness: on a fresh storage (root 0, no records), handle A commits
a leaf with JSON payload `1` — persisted at offset 53, root rewritten to
53 — and handle B, still holding lease 0, gets `ConcurrencyError` and the
file stays unchanged; the CAS condition holds for lease 7 versus root
0. -/
theorem C1_witness :
    RStore.Store_open (Storage.IDENTIFIER ++ 10 :: (List.replicate 15 48 ++ 10 :: []))
      = .ok ⟨0, .asInt 0⟩
    ∧ RStore.Store_commit (Storage.IDENTIFIER ++ 10 :: (List.replicate 15 48 ++ 10 :: []))
        ⟨0, .asItem ⟨[49], none, true⟩⟩
      = (Storage.IDENTIFIER ++ 10 :: (Storage.fmtZeroPad 53 15
           ++ 10 :: ([] ++ 9 :: ((61 :: [49]) ++ [10]))),
         ⟨53, .asItem ⟨[49], some 53, true⟩⟩, .ok 53)
    ∧ RStore.Store_commit (Storage.IDENTIFIER ++ 10 :: (Storage.fmtZeroPad 53 15
           ++ 10 :: ([] ++ 9 :: ((61 :: [49]) ++ [10]))))
        ⟨0, .asInt 0⟩
      = (Storage.IDENTIFIER ++ 10 :: (Storage.fmtZeroPad 53 15
           ++ 10 :: ([] ++ 9 :: ((61 :: [49]) ++ [10]))),
         ⟨0, .asInt 0⟩, .error .concurrencyError)
    ∧ (Storage.set_current (Storage.IDENTIFIER ++ 10 :: (List.replicate 15 48 ++ 10 :: []))
        53 (some 7) = .error .concurrencyError ↔ (7 : Nat) ≠ 0) := by
  have h := C1_commit_cas (List.replicate 15 48) [] [49]
    (by decide) (by decide) (by decide) (by decide) (by decide) (by decide)
  have hv : Storage.digitsVal (List.replicate 15 48) = 0 := by decide
  rw [hv] at h
  refine ⟨h.1, ?_, ?_, ?_⟩
  · have h2 := h.2.1
    simpa using h2
  · have h4 := h.2.2.2.1
    simpa using h4
  · have h5 := h.2.2.2.2 53 7
    simpa using h5

/-- C6: moving a tree into itself or into one of its own descendants is
refused.  For a destination façade at path `pt` and a source façade whose
node sits at path `ps`, when `ps` is a prefix of `pt` (the source's node
is the destination's node or the node of one of its ancestors — by the
one-parent invariant, node-object identity is path equality), `_set` with
a `Move` raises `RuntimeError('Cannot move a tree to a child of
itself.')`, and the tree is exactly as before the call: only the
read-only precheck (`validate` on the source's leaves) has run. -/
theorem C6_move_into_descendant (es srcEs : List (String × TreeF.PItem))
    (pt ps : List String) (k : String)
    (hsrc : TreeF.getNodeAt (.node es) ps = some (.node srcEs))
    (hpre : pt.take ps.length = ps) :
    TreeF.Tree_set (.node es) pt k (.mv ps)
      = ⟨.node es, TreeF.checkEvents (.node srcEs) ps, some .runtimeError⟩ := by
  unfold TreeF.Tree_set
  dsimp only
  rw [hsrc]
  dsimp only
  rw [if_pos (by
    have := TreeF.upChain_any pt ps hpre
    simpa using this)]

/-- C6 witness: the spec's own scenario: on the tree `root.a.b.c`,
`root.a.b = Move(root.a)` raises and the tree is unchanged (the source
subtree holds no leaves, so the precheck makes no `validate` calls and
the recorded schema-event trace is empty). -/
theorem C6_witness :
    TreeF.Tree_set TreeF.exChain ["a"] "b" (.mv ["a"])
      = ⟨TreeF.exChain, [], some .runtimeError⟩ := by
  have h := C6_move_into_descendant
    [("a", .node [("b", .node [("c", .node [])])])]
    [("b", .node [("c", .node [])])]
    ["a"] ["a"] "b" (by rfl) (by decide)
  rw [show TreeF.exChain = .node [("a", .node [("b", .node [("c", .node [])])])] from rfl]
  rw [h]
  simp [TreeF.checkEvents, TreeF.checkEventsList]

/-- C7 counterexample: `Node.set` does not detach the previous child.
On a heap where item 1 is attached to node 0 under key `"x"` and item 2
is detached, `Node.set 0 "x" 2` succeeds and overwrites the entry, but
item 1's parent link is still `(0, "x")` — it was not cleared, contrary
to the claim that the previous child is detached. -/
theorem C7_counterexample :
    Attach.Node_set ⟨[none, some (0, "x"), none], [("x", 1)]⟩ 0 "x" 2
      = .ok ⟨[none, some (0, "x"), some (0, "x")], [("x", 2)]⟩
    ∧ ([none, some (0, "x"), some (0, "x")] : Attach.Links).get? 1
        = some (some (0, "x"))
    ∧ ([none, some (0, "x"), some (0, "x")] : Attach.Links).get? 1 ≠ some none := by
  exact ⟨rfl, rfl, by decide⟩

/-- C7 amended: when `Node.set(key, item)` stores a child at a key that
already holds a child, the previous child is NOT detached — its parent
link remains exactly as it was; the new child is attached to
`(node, key)` and the entry is overwritten.  Each item still has at most
one parent link at any instant because the link is a single slot and
`_attach` raises `StoreError` on an already-attached item (second
conjunct); explicit detaching happens only in `Node.remove` (and the
move path that uses it). -/
theorem C7_node_set (h : Attach.NHeap) (nid vid old : Nat) (key : String)
    (L : Nat × String)
    (hold : h.entries.lookup key = some old)
    (holdlink : h.links.get? old = some (some L))
    (hnew : h.links.get? vid = some none) :
    (Attach.Node_set h nid key vid
        = .ok ⟨h.links.set vid (some (nid, key)), Attach.upsertNat h.entries key vid⟩
      ∧ (h.links.set vid (some (nid, key))).get? old = some (some L)
      ∧ (h.links.set vid (some (nid, key))).get? vid = some (some (nid, key)))
    ∧ (∀ (h2 : Attach.NHeap) (L2 : Nat × String),
        h2.links.get? vid = some (some L2) →
        Attach.Node_set h2 nid key vid = .error .storeError) := by
  have hne : old ≠ vid := by
    intro hc
    subst hc
    rw [holdlink] at hnew
    exact Option.noConfusion (Option.some.inj hnew)
  have hlt : vid < h.links.length := by
    by_contra hc
    rw [List.get?_eq_none.mpr (by omega)] at hnew
    exact Option.noConfusion hnew
  constructor
  · refine ⟨?_, ?_, ?_⟩
    · unfold Attach.Node_set Attach.Item_attach
      rw [hnew]
    · rw [List.get?_set_ne _ _ (fun hc => hne hc.symm)]
      exact holdlink
    · exact List.get?_set_eq_of_lt _ hlt
  · intro h2 L2 hl2
    unfold Attach.Node_set Attach.Item_attach
    rw [hl2]

/-- C7 witness: the amended statement at the concrete heap of the
counterexample: the set succeeds, the old child stays attached, the new
child is attached, and attaching an already-attached item fails. -/
theorem C7_witness :
    (Attach.Node_set ⟨[none, some (0, "x"), none], [("x", 1)]⟩ 0 "x" 2
        = .ok ⟨([none, some (0, "x"), none] : Attach.Links).set 2 (some (0, "x")),
            Attach.upsertNat [("x", 1)] "x" 2⟩
      ∧ (([none, some (0, "x"), none] : Attach.Links).set 2 (some (0, "x"))).get? 1
          = some (some (0, "x"))
      ∧ (([none, some (0, "x"), none] : Attach.Links).set 2 (some (0, "x"))).get? 2
          = some (some (0, "x")))
    ∧ (∀ (h2 : Attach.NHeap) (L2 : Nat × String),
        h2.links.get? 2 = some (some L2) →
        Attach.Node_set h2 0 "x" 2 = .error .storeError) :=
  C7_node_set ⟨[none, some (0, "x"), none], [("x", 1)]⟩ 0 2 1 "x" (0, "x")
    (by decide) (by decide) (by decide)

/-- C8 counterexample: setting an `Empty` placeholder on an
already-materialized tree stores a fresh empty node but makes NO schema
call at all — the trace of schema invocations is empty, so in particular
`setup()` is never invoked on the newly created node: the `setup` flag
computed in `_set` is dead, because the `schema.setup` call at the end of
`_set` is commented out (tree.py lines 368-369). -/
theorem C8_counterexample :
    (TreeF.Tree_set (.node []) [] "a" .empty).tree = .node [("a", .node [])]
    ∧ (TreeF.Tree_set (.node []) [] "a" .empty).events = []
    ∧ (TreeF.Tree_set (.node []) [] "a" .empty).err = none := by
  exact ⟨rfl, rfl, rfl⟩

/-- C8 amended: `T._set(k, Empty())` stores a new empty node at `k`; the
schema's `setup()` is NOT invoked on the newly created node (the call is
commented out in the source).  `setup` events can only arise from
`__realize` creating missing nodes along `T`'s own path; when that path
already exists, as here, the call makes no schema invocation at all and
raises nothing. -/
theorem C8_empty_no_setup (es es' : List (String × TreeF.PItem))
    (pt : List String) (k : String)
    (h : TreeF.getNodeAt (.node es) pt = some (.node es')) :
    TreeF.Tree_set (.node es) pt k .empty
      = ⟨TreeF.setAt (.node es) pt k (.node []), [], none⟩ := by
  unfold TreeF.Tree_set
  dsimp only
  rw [TreeF.realizeAt_noop pt es es' [] h]

/-- C8 witness: on the tree `root.a.b.c`, `root.a._set("z", Empty())`
stores an empty node at `root.a.z` with an empty schema-call trace. -/
theorem C8_witness :
    TreeF.Tree_set TreeF.exChain ["a"] "z" .empty
      = ⟨.node [("a", .node [("b", .node [("c", .node [])]), ("z", .node [])])],
         [], none⟩ := by
  have h := C8_empty_no_setup
    [("a", .node [("b", .node [("c", .node [])])])]
    [("b", .node [("c", .node [])])]
    ["a"] "z" (by rfl)
  rw [show TreeF.exChain = .node [("a", .node [("b", .node [("c", .node [])])])] from rfl]
  rw [h]
  rfl

/-- C9: query kept-segment semantics.  If no segment of an expression is
parenthesized all segments are kept, otherwise exactly the parenthesized
ones (first two conjuncts, about the `_query` preprocessing); the result
maps kept paths to matched values and a duplicated kept path is a hard
error: on the tree `{a: {b: 1, c: 2}, d: {b: 3}}`, the query `*.(b)`
raises the name-collision `RuntimeError` while `(*).(b)` returns
`{("a","b"): 1, ("d","b"): 3}`. -/
theorem C9_query_kept_segments :
    (∀ path : List (List Char), (∀ el ∈ path, TreeF.isParen el = false) →
      TreeF.mkQPath path = path.map (fun el => (el, true)))
    ∧ (∀ (path : List (List Char)) (el0 : List Char), el0 ∈ path →
        TreeF.isParen el0 = true →
        TreeF.mkQPath path = path.map
          (fun el => (if TreeF.isParen el then TreeF.strip1 el else el,
            TreeF.isParen el)))
    ∧ TreeF.tquery TreeF.exTree "*.(b)".toList = .error .runtimeError
    ∧ TreeF.tquery TreeF.exTree "(*).(b)".toList
        = .ok [(["a", "b"], .qval (.jnum 1)), (["d", "b"], .qval (.jnum 3))] := by
  refine ⟨?_, ?_, rfl, rfl⟩
  · intro path hall
    unfold TreeF.mkQPath
    have hany : ((path.map (fun el => (el, TreeF.isParen el))).any
        (fun p => p.2)) = false := by
      rw [List.any_eq_false]
      intro p hp
      rw [List.mem_map] at hp
      obtain ⟨el, hel, hpe⟩ := hp
      rw [← hpe]
      simp [hall el hel]
    simp only [hany]
    simp
  · intro path el0 hel0 hpar
    unfold TreeF.mkQPath
    have hany : ((path.map (fun el => (el, TreeF.isParen el))).any
        (fun p => p.2)) = true := by
      rw [List.any_eq_true]
      exact ⟨(el0, TreeF.isParen el0), List.mem_map_of_mem _ hel0, by simp [hpar]⟩
    simp only [hany]
    simp only [if_true, eq_self_iff_true, List.map_map]
    rfl

/-- C9 witness: the preprocessing at concrete paths: in `a.b` no segment
is parenthesized so both are kept; in `a.(b)` only `(b)` is kept, with
its parentheses stripped. -/
theorem C9_witness :
    TreeF.mkQPath [['a'], ['b']] = [(['a'], true), (['b'], true)]
    ∧ TreeF.mkQPath [['a'], ['('] ++ ['b'] ++ [')']]
      = [(['a'], false), (['b'], true)] := by
  constructor
  · exact (C9_query_kept_segments.1 [['a'], ['b']] (by decide)).trans (by rfl)
  · exact (C9_query_kept_segments.2.1 [['a'], ['('] ++ ['b'] ++ [')']]
      (['('] ++ ['b'] ++ [')']) (by simp) (by decide)).trans (by rfl)


